import Mathlib

/-!
# mRTOS Cortex-M0+ port: stack-frame initialiser and context-switch handlers

A shallow embedding of `rtos_portable.c` / `rtos_portable.h`.

* Memory is a flat, byte-addressed, little-endian 32-bit address space.  Every
  address is reduced modulo `2^32` by the access functions.  Alignment and bus
  faults are outside the model: every access succeeds, and `MSR` to a stack
  pointer writes the register value as it is (the hardware clears its two low
  bits, which are zero for every word-aligned stack pointer).
* The memory carries two ghost logs, the byte addresses stored to and the byte
  addresses loaded from, so that "writes" and "reads" can be stated.
* The two `naked` handlers are kept as instruction listings (`List Instr`) and
  run by a small-step interpreter for the Thumb instructions they use.
* Link-time symbols (`&_l_main_stack_bottom`, `&g_sch.p_current`,
  `&g_sch.p_next`) come from headers that are not part of this repository and
  are parameters of the listings.
* The exception return that the final `BX` of a handler performs
  (`exceptionReturn`) follows the architecture: the EXC_RETURN value selects the
  mode and the stack, the hardware-saved half is popped from that stack, and
  thread-mode privilege is CONTROL.nPRIV, which no code of the port writes.
* `osport_idle` is a three-point control-flow model of `for( ; ; ) WFI`, and
  sequences of calls of the exposed operations are folded over a state with a
  ghost count of the runs of `isr_svc`.
-/

namespace MRtos

/-! ## Memory -/

/-- Size of the address space: addresses and words are taken modulo `2^32`. -/
abbrev WORD : Nat := 4294967296

/-- Byte-addressed memory with ghost logs of the byte addresses accessed. -/
structure Mem where
  /-- Contents, one value per byte address. -/
  bytes : Nat → Nat
  /-- Byte addresses stored to, most recent first. -/
  stores : List Nat
  /-- Byte addresses loaded from, most recent first. -/
  loads : List Nat

/-- Store one byte. -/
def Mem.store8 (m : Mem) (a v : Nat) : Mem :=
  { bytes := fun x => if x = a % WORD then v % 256 else m.bytes x
    stores := (a % WORD) :: m.stores
    loads := m.loads }

/-- Store a 32-bit word, little-endian, lowest address first. -/
def Mem.store32 (m : Mem) (a v : Nat) : Mem :=
  (((m.store8 a v).store8 (a + 1) (v / 256)).store8 (a + 2) (v / 65536)).store8
    (a + 3) (v / 16777216)

/-- Value of the byte at an address. -/
def Mem.load8 (m : Mem) (a : Nat) : Nat := m.bytes (a % WORD) % 256

/-- Value of the little-endian 32-bit word at an address. -/
def Mem.load32 (m : Mem) (a : Nat) : Nat :=
  m.load8 a + 256 * m.load8 (a + 1) + 65536 * m.load8 (a + 2) + 16777216 * m.load8 (a + 3)

/-- Record a 32-bit load in the ghost log. -/
def Mem.logLoad32 (m : Mem) (a : Nat) : Mem :=
  { m with loads := (a + 3) % WORD :: (a + 2) % WORD :: (a + 1) % WORD :: a % WORD :: m.loads }

/-- Store four consecutive words, lowest address first (`STMIA` of four registers). -/
def Mem.store32x4 (m : Mem) (a v0 v1 v2 v3 : Nat) : Mem :=
  (((m.store32 a v0).store32 (a + 4) v1).store32 (a + 8) v2).store32 (a + 12) v3

/-- Record the loads of four consecutive words (`LDMIA` of four registers). -/
def Mem.logLoad32x4 (m : Mem) (a : Nat) : Mem :=
  (((m.logLoad32 a).logLoad32 (a + 4)).logLoad32 (a + 8)).logLoad32 (a + 12)

/-- The word at `w` lies in the address space and does not meet the bytes `[lo, hi)`. -/
def WordAvoids (w lo hi : Nat) : Prop := w + 4 ≤ WORD ∧ (w + 4 ≤ lo ∨ hi ≤ w)

instance (w lo hi : Nat) : Decidable (WordAvoids w lo hi) := by
  unfold WordAvoids
  infer_instance

/-- The words at `v` and `w` lie in the address space and do not overlap. -/
def WordsDisjoint (v w : Nat) : Prop := v + 4 ≤ WORD ∧ w + 4 ≤ WORD ∧ (v + 4 ≤ w ∨ w + 4 ≤ v)

instance (v w : Nat) : Decidable (WordsDisjoint v w) := by
  unfold WordsDisjoint
  infer_instance

/-! ## Frame layout (`struct stack_frame_s`, packed) -/

/-- The members of `struct stack_frame_s`. -/
inductive FrameField
  | r8 | r9 | r10 | r11 | r4 | r5 | r6 | r7
  | r0 | r1 | r2 | r3 | r12 | lr | pc | psr
  deriving DecidableEq, Repr

/-- Members of `struct stack_frame_s` in declaration order. -/
def stack_frame_s : List FrameField :=
  [ .r8, .r9, .r10, .r11, .r4, .r5, .r6, .r7,
    .r0, .r1, .r2, .r3, .r12, .lr, .pc, .psr ]

/-- Size of `uint32_t` in bytes. -/
def sizeof_uint32_t : Nat := 4

/-- Byte offset of a member: the struct is packed and every member is a `uint32_t`. -/
def offsetof (f : FrameField) : Nat := sizeof_uint32_t * stack_frame_s.indexOf f

/-- Value of `sizeof(stack_frame_t)`. -/
def sizeof_stack_frame_t : Nat := sizeof_uint32_t * stack_frame_s.length

/-- Frame member that holds general register `rN`, for `N` in `0..12`. -/
def gpr : Nat → FrameField
  | 0 => .r0 | 1 => .r1 | 2 => .r2 | 3 => .r3 | 4 => .r4 | 5 => .r5 | 6 => .r6
  | 7 => .r7 | 8 => .r8 | 9 => .r9 | 10 => .r10 | 11 => .r11 | _ => .r12

/-- Initial program status value. -/
def INITIAL_PSR : Nat := 0x01000000

/-- Configured value of the debug-fill switch in `rtos_portable.h`. -/
def OSPORT_ENABLE_DEBUG : Bool := true

/-- Configured memory alignment in `rtos_portable.h`. -/
def OSPORT_MEM_ALIGN : Nat := 4

/-- Number of values of `OSPORT_UINT_T` (`uint16_t`). -/
def OSPORT_UINT_T_RANGE : Nat := 65536

/-! ## `osport_init_stack` -/

/-- Assignment `p_frame->f = v`. -/
def setField (m : Mem) (p_frame : Nat) (f : FrameField) (v : Nat) : Mem :=
  m.store32 (p_frame + offsetof f) v

/-- Read of `p_frame->f`. -/
def getField (m : Mem) (p_frame : Nat) (f : FrameField) : Nat :=
  m.load32 (p_frame + offsetof f)

/-- The debug fill of `osport_init_stack`, in source order. -/
def debugFill (m : Mem) (p_frame : Nat) : Mem :=
  let m := setField m p_frame .r0 0x00001000
  let m := setField m p_frame .r1 0x00001001
  let m := setField m p_frame .r2 0x00001002
  let m := setField m p_frame .r3 0x00001003
  let m := setField m p_frame .r4 0x00001004
  let m := setField m p_frame .r5 0x00001005
  let m := setField m p_frame .r6 0x00001006
  let m := setField m p_frame .r7 0x00001007
  let m := setField m p_frame .r8 0x00001008
  let m := setField m p_frame .r9 0x00001009
  let m := setField m p_frame .r10 0x0000100A
  let m := setField m p_frame .r11 0x0000100B
  setField m p_frame .r12 0x0000100C

/-- Initialises a thread stack: `osport_init_stack`.  The `debug` flag is the
preprocessor switch `OSPORT_ENABLE_DEBUG`.  Returns the frame pointer and the
memory after the call.  `size` is converted to `OSPORT_UINT_T`, the pointer
arithmetic is modulo `2^32`. -/
def osport_init_stack (debug : Bool) (m : Mem) (p_stack size p_start_from p_return_to : Nat) :
    Nat × Mem :=
  let p_frame := ((p_stack + size % OSPORT_UINT_T_RANGE) % WORD
                    + (WORD - sizeof_stack_frame_t)) % WORD
  let m := if debug then debugFill m p_frame else m
  let m := setField m p_frame .psr INITIAL_PSR
  let m := setField m p_frame .pc p_start_from
  let m := setField m p_frame .lr p_return_to
  (p_frame, m)

/-- Memory stores appended to the ghost log between two memories of one run. -/
def Mem.storesSince (before after : Mem) : List Nat :=
  after.stores.take (after.stores.length - before.stores.length)

/-- Memory loads appended to the ghost log between two memories of one run. -/
def Mem.loadsSince (before after : Mem) : List Nat :=
  after.loads.take (after.loads.length - before.loads.length)

/-! ## Processor model for the `naked` handlers -/

/-- Core registers the handlers name directly. -/
inductive Reg
  | r0 | r1 | r2 | r3 | r4 | r5 | r6 | r7 | r8 | r9 | r10 | r11 | r12 | lr
  deriving DecidableEq, Repr

/-- Banked stack pointers reached through `MRS` / `MSR`. -/
inductive SysReg
  | msp | psp
  deriving DecidableEq, Repr

/-- The Thumb instructions that occur in `isr_svc` and `isr_pendsv`. -/
inductive Instr
  /-- The `DSB` barrier. -/
  | dsb
  /-- The `ISB` barrier. -/
  | isb
  /-- The instruction `CPSID I`: set PRIMASK. -/
  | cpsid_i
  /-- The instruction `CPSIE I`: clear PRIMASK. -/
  | cpsie_i
  /-- The pseudo-instruction `LDR Rd, =const`: the constant comes from the
  literal pool of the code and is not a logged data access. -/
  | ldr_lit (rd : Reg) (const : Nat)
  /-- The instruction `MSR spec, Rn`. -/
  | msr (spec : SysReg) (rn : Reg)
  /-- The instruction `MRS Rd, spec`. -/
  | mrs (rd : Reg) (spec : SysReg)
  /-- The instruction `LDR Rt, [Rn]`. -/
  | ldr (rt rn : Reg)
  /-- The instruction `STR Rt, [Rn]`. -/
  | str (rt rn : Reg)
  /-- The instruction `LDMIA Rn!, {R4-R7}`. -/
  | ldmia_r4_r7 (rn : Reg)
  /-- The instruction `STMIA Rn!, {R4-R7}`. -/
  | stmia_r4_r7 (rn : Reg)
  /-- The instruction `MOV Rd, Rm`. -/
  | mov (rd rm : Reg)
  /-- The instruction `SUB Rdn, #imm`. -/
  | sub_imm (rdn : Reg) (imm : Nat)
  /-- The instruction `BX Rm`. -/
  | bx (rm : Reg)
  deriving DecidableEq, Repr

/-- Processor and memory state seen by a handler. -/
structure Cpu where
  /-- Core registers. -/
  regs : Reg → Nat
  /-- Main stack pointer. -/
  msp : Nat
  /-- Process stack pointer. -/
  psp : Nat
  /-- PRIMASK: `true` when interrupts are masked. -/
  primask : Bool
  /-- Value the handler branched to with `BX`, if it has done so. -/
  branch : Option Nat
  /-- Memory. -/
  mem : Mem
  /-- The CONTROL register: bit 0 is nPRIV, bit 1 is SPSEL.  No instruction of
  the handlers writes it. -/
  control : Nat

/-- Write a core register. -/
def Cpu.set (s : Cpu) (r : Reg) (v : Nat) : Cpu :=
  { s with regs := fun x => if x = r then v else s.regs x }

/-- Read a banked stack pointer. -/
def Cpu.sys (s : Cpu) : SysReg → Nat
  | .msp => s.msp
  | .psp => s.psp

/-- Effect of one instruction.  Register arithmetic is modulo `2^32`.  In
`LDMIA` and `STMIA` the base register is not in the register list `{R4-R7}` (it
is `R0` or `R2` in the handlers), so it is written back. -/
def exec (i : Instr) (s : Cpu) : Cpu :=
  match i with
  | .dsb => s
  | .isb => s
  | .cpsid_i => { s with primask := true }
  | .cpsie_i => { s with primask := false }
  | .ldr_lit rd const => s.set rd (const % WORD)
  | .msr .msp rn => { s with msp := s.regs rn }
  | .msr .psp rn => { s with psp := s.regs rn }
  | .mrs rd spec => s.set rd (s.sys spec)
  | .ldr rt rn =>
      { s with mem := s.mem.logLoad32 (s.regs rn) }.set rt (s.mem.load32 (s.regs rn))
  | .str rt rn => { s with mem := s.mem.store32 (s.regs rn) (s.regs rt) }
  | .ldmia_r4_r7 rn =>
      let a := s.regs rn
      let m := s.mem
      let s := { s with mem := m.logLoad32x4 a }
      let s := s.set .r4 (m.load32 a)
      let s := s.set .r5 (m.load32 (a + 4))
      let s := s.set .r6 (m.load32 (a + 8))
      let s := s.set .r7 (m.load32 (a + 12))
      s.set rn ((a + 16) % WORD)
  | .stmia_r4_r7 rn =>
      let a := s.regs rn
      let m := s.mem.store32x4 a (s.regs .r4) (s.regs .r5) (s.regs .r6) (s.regs .r7)
      { s with mem := m }.set rn ((a + 16) % WORD)
  | .mov rd rm => s.set rd (s.regs rm)
  | .sub_imm rdn imm => s.set rdn ((s.regs rdn + (WORD - imm % WORD)) % WORD)
  | .bx rm => { s with branch := some (s.regs rm) }

/-- Run a straight-line listing from a state.  Both handlers are straight-line
code whose last instruction is the `BX` that leaves the handler. -/
def run (prog : List Instr) (s : Cpu) : Cpu :=
  prog.foldl (fun st i => exec i st) s

/-- Link-time addresses the handlers take as immediate operands. -/
structure LinkSyms where
  /-- Address `&_l_main_stack_bottom`. -/
  main_stack_bottom : Nat
  /-- Address `&g_sch.p_current`. -/
  pp_current : Nat
  /-- Address `&g_sch.p_next`. -/
  pp_next : Nat

/-- SVCall handler `isr_svc`. -/
def isr_svc (L : LinkSyms) : List Instr :=
  [ .dsb,
    .isb,
    .cpsid_i,
    .ldr_lit .r0 L.main_stack_bottom,
    .msr .msp .r0,
    .ldr_lit .r0 L.pp_current,
    .ldr .r0 .r0,
    .ldr .r0 .r0,
    .ldmia_r4_r7 .r0,
    .mov .r11 .r7,
    .mov .r10 .r6,
    .mov .r9 .r5,
    .mov .r8 .r4,
    .ldmia_r4_r7 .r0,
    .msr .psp .r0,
    .ldr_lit .r0 0xFFFFFFFD,
    .cpsie_i,
    .bx .r0 ]

/-- PendSV handler `isr_pendsv`. -/
def isr_pendsv (L : LinkSyms) : List Instr :=
  [ .dsb,
    .isb,
    .cpsid_i,
    .mrs .r2 .psp,
    .sub_imm .r2 16,
    .stmia_r4_r7 .r2,
    .mov .r7 .r11,
    .mov .r6 .r10,
    .mov .r5 .r9,
    .mov .r4 .r8,
    .sub_imm .r2 32,
    .stmia_r4_r7 .r2,
    .sub_imm .r2 16,
    .ldr_lit .r0 L.pp_current,
    .ldr .r1 .r0,
    .str .r2 .r1,
    .ldr_lit .r1 L.pp_next,
    .ldr .r1 .r1,
    .ldr .r2 .r1,
    .ldmia_r4_r7 .r2,
    .mov .r11 .r7,
    .mov .r10 .r6,
    .mov .r9 .r5,
    .mov .r8 .r4,
    .ldmia_r4_r7 .r2,
    .msr .psp .r2,
    .str .r1 .r0,
    .cpsie_i,
    .bx .lr ]

/-- Memory of `isr_pendsv` once the outgoing context is saved (after the
`STR R2, [R1]` of the listing) when `32 <= psp < 2^32`: `r4..r7` stored at
`[psp - 16, psp)`, `r8..r11` at `[psp - 32, psp - 16)`, and `psp - 32` stored
through the handle read from `g_sch.p_current`. -/
def pendsvSaved (L : LinkSyms) (s : Cpu) : Mem :=
  let m := (s.mem.store32x4 (s.psp - 16) (s.regs .r4) (s.regs .r5) (s.regs .r6)
              (s.regs .r7)).store32x4 (s.psp - 32) (s.regs .r8) (s.regs .r9)
              (s.regs .r10) (s.regs .r11)
  (m.logLoad32 L.pp_current).store32 (m.load32 L.pp_current) (s.psp - 32)

/-- Entry layout of `isr_pendsv`: the process stack has room for the 32-byte
save area `[psp - 32, psp)` inside the address space, and the save area, the
saved-stack-pointer word of the current thread and the two scheduler
back-references `g_sch.p_current`, `g_sch.p_next` are pairwise disjoint. -/
def PendsvLayout (L : LinkSyms) (s : Cpu) : Prop :=
  32 ≤ s.psp ∧ s.psp < WORD ∧
  WordAvoids L.pp_current (s.psp - 32) s.psp ∧
  WordAvoids L.pp_next (s.psp - 32) s.psp ∧
  WordsDisjoint L.pp_current L.pp_next ∧
  WordAvoids (s.mem.load32 L.pp_current) (s.psp - 32) s.psp ∧
  WordsDisjoint (s.mem.load32 L.pp_current) L.pp_current ∧
  WordsDisjoint (s.mem.load32 L.pp_current) L.pp_next

instance (L : LinkSyms) (s : Cpu) : Decidable (PendsvLayout L s) := by
  unfold PendsvLayout
  infer_instance

/-! ## Exception return -/

/-- Context in which execution resumes after an exception return. -/
structure Resumed where
  /-- Register `r0` popped from the frame. -/
  r0 : Nat
  /-- Register `r1` popped from the frame. -/
  r1 : Nat
  /-- Register `r2` popped from the frame. -/
  r2 : Nat
  /-- Register `r3` popped from the frame. -/
  r3 : Nat
  /-- Register `r12` popped from the frame. -/
  r12 : Nat
  /-- Link register popped from the frame. -/
  lr : Nat
  /-- Program counter popped from the frame. -/
  pc : Nat
  /-- Program status word popped from the frame. -/
  psr : Nat
  /-- Thread mode (`true`) or handler mode (`false`). -/
  threadMode : Bool
  /-- The process stack (`true`) or the main stack (`false`) is in use. -/
  onProcessStack : Bool
  /-- Execution is privileged. -/
  privileged : Bool

/-- Hardware unstacking of the eight words `r0, r1, r2, r3, r12, lr, pc, psr`
at `frameptr`.  Handler mode is always privileged; thread mode is privileged
when CONTROL.nPRIV (bit 0) is clear. -/
def unstack (s : Cpu) (frameptr : Nat) (thread psp : Bool) : Resumed :=
  { r0 := s.mem.load32 frameptr
    r1 := s.mem.load32 (frameptr + 4)
    r2 := s.mem.load32 (frameptr + 8)
    r3 := s.mem.load32 (frameptr + 12)
    r12 := s.mem.load32 (frameptr + 16)
    lr := s.mem.load32 (frameptr + 20)
    pc := s.mem.load32 (frameptr + 24)
    psr := s.mem.load32 (frameptr + 28)
    threadMode := thread
    onProcessStack := psp
    privileged := !thread || s.control % 2 == 0 }

/-- Exception return performed by the `BX` that ends a handler, by the
EXC_RETURN value branched to: `0xFFFFFFFD` resumes thread mode on the process
stack, `0xFFFFFFF9` thread mode on the main stack, `0xFFFFFFF1` handler mode.
Any other value is not an exception return. -/
def exceptionReturn (s : Cpu) : Option Resumed :=
  match s.branch with
  | none => none
  | some v =>
    if v = 0xFFFFFFFD then some (unstack s s.psp true true)
    else if v = 0xFFFFFFF9 then some (unstack s s.msp true false)
    else if v = 0xFFFFFFF1 then some (unstack s s.msp false false)
    else none

/-! ## Instruction traces -/

/-- Instructions that load or store memory or that read or write a stack
pointer register.  A store through `g_sch.p_current` is a `STR`. -/
def Instr.isCritical : Instr → Bool
  | .ldr_lit _ _ => true
  | .msr _ _ => true
  | .mrs _ _ => true
  | .ldr _ _ => true
  | .str _ _ => true
  | .ldmia_r4_r7 _ => true
  | .stmia_r4_r7 _ => true
  | _ => false

/-- Each instruction of a listing paired with the state in which it executes. -/
def trace : List Instr → Cpu → List (Instr × Cpu)
  | [], _ => []
  | i :: is, s => (i, s) :: trace is (exec i s)

/-- Core registers an instruction writes. -/
def Instr.dest : Instr → List Reg
  | .ldr_lit rd _ => [rd]
  | .mrs rd _ => [rd]
  | .ldr rt _ => [rt]
  | .ldmia_r4_r7 rn => [.r4, .r5, .r6, .r7, rn]
  | .stmia_r4_r7 rn => [rn]
  | .mov rd _ => [rd]
  | .sub_imm rdn _ => [rdn]
  | _ => []

/-! ## `osport_start` and sequences of calls -/

/-- Address of the SysTick control register. -/
def SYSTICK_REG : Nat := 0xE000E010

/-- SysTick counter enable bit, `1 << 0`. -/
def SYSTICK_SET : Nat := 1

/-- First statement of `osport_start`: `SYSTICK_REG |= SYSTICK_SET`. -/
def osport_start_enable (m : Mem) : Mem :=
  (m.logLoad32 SYSTICK_REG).store32 SYSTICK_REG (m.load32 SYSTICK_REG ||| SYSTICK_SET)

/-- The exposed operations: the three functions and the three handlers. -/
inductive Op
  /-- A call of `osport_start`. -/
  | osport_start
  /-- A call of `osport_init_stack`. -/
  | osport_init_stack (p_stack size p_start_from p_return_to : Nat)
  /-- An entry of the SVCall handler. -/
  | isr_svc
  /-- An entry of the PendSV handler. -/
  | isr_pendsv
  /-- An entry of the SysTick handler. -/
  | isr_systick
  deriving DecidableEq, Repr

/-- Operations that run the listing of `isr_svc`: the handler itself and
`osport_start`, whose `SVC 0` raises SVCall. -/
def Op.bootstraps : Op → Bool
  | .osport_start => true
  | .isr_svc => true
  | _ => false

/-- Processor state with a ghost count of the runs of `isr_svc`. -/
structure Sys where
  /-- Processor and memory. -/
  cpu : Cpu
  /-- Number of times the listing of `isr_svc` has run. -/
  svcRuns : Nat

/-- Effect of one operation.  `osport_start` enables SysTick and executes
`SVC 0`, which enters `isr_svc`; the frame the hardware stacks on the main
stack at that entry is not modelled, `isr_svc` discards the main stack.
`isr_systick` calls the external `os_handle_heartbeat`.  No operation tests
whether `isr_svc` has run before. -/
def Sys.call (L : LinkSyms) (os_handle_heartbeat : Cpu → Cpu) (σ : Sys) : Op → Sys
  | .osport_start =>
      { cpu := run (isr_svc L) { σ.cpu with mem := osport_start_enable σ.cpu.mem }
        svcRuns := σ.svcRuns + 1 }
  | .osport_init_stack p_stack size p_start_from p_return_to =>
      { σ with cpu := { σ.cpu with mem := (osport_init_stack OSPORT_ENABLE_DEBUG σ.cpu.mem
          p_stack size p_start_from p_return_to).2 } }
  | .isr_svc => { cpu := run (isr_svc L) σ.cpu, svcRuns := σ.svcRuns + 1 }
  | .isr_pendsv => { σ with cpu := run (isr_pendsv L) σ.cpu }
  | .isr_systick => { σ with cpu := os_handle_heartbeat σ.cpu }

/-- Effect of a sequence of operations. -/
def Sys.calls (L : LinkSyms) (os_handle_heartbeat : Cpu → Cpu) (σ : Sys) (ops : List Op) : Sys :=
  ops.foldl (Sys.call L os_handle_heartbeat) σ

/-! ## `osport_idle` -/

/-- Program points of `osport_idle`: the head of `for( ; ; )`, the `WFI` of its
body, and the return of the function. -/
inductive IdlePoint
  | head | wfi | returned
  deriving DecidableEq, Repr

/-- State of `osport_idle`: program point, number of loop iterations entered
and number of `WFI` executed. -/
structure IdleState where
  /-- Program point. -/
  point : IdlePoint
  /-- Loop iterations entered. -/
  iterations : Nat
  /-- Executions of `WFI`. -/
  waits : Nat
  deriving DecidableEq, Repr

/-- Entry of `osport_idle`. -/
def osport_idle_entry : IdleState := { point := .head, iterations := 0, waits := 0 }

/-- One step of `osport_idle`.  The loop `for( ; ; )` has no condition, so its
head always enters the body; the body is the single `WFI`, after which control
is back at the head.  Nothing steps to the return, and the return has no step. -/
def osport_idle_step (s : IdleState) : Option IdleState :=
  match s.point with
  | .head => some { s with point := .wfi, iterations := s.iterations + 1 }
  | .wfi => some { s with point := .head, waits := s.waits + 1 }
  | .returned => none

/-- State of `osport_idle` after `k` steps from a state, `none` once a step is
missing. -/
def osport_idle_steps : Nat → IdleState → Option IdleState
  | 0, s => some s
  | k + 1, s => (osport_idle_step s).bind (osport_idle_steps k)

/-! ## Concrete states used to exercise the definitions -/

/-- Zero-filled memory with empty logs. -/
def mem0 : Mem := { bytes := fun _ => 0, stores := [], loads := [] }

/-- Memory filled with `0xAA` bytes, with empty logs. -/
def memAA : Mem := { bytes := fun _ => 0xAA, stores := [], loads := [] }

/-- Link-time addresses of the example: `g_sch` at `0x20000100`. -/
def demoLink : LinkSyms :=
  { main_stack_bottom := 0x20004000, pp_current := 0x20000100, pp_next := 0x20000104 }

/-- Example memory: thread A has its handle at `0x20000200`, thread B has its
handle at `0x20000210` and a frame built by `osport_init_stack` in the region
`[0x20002000, 0x20002100)`; A is current and B is next. -/
def demoMem : Mem :=
  let r := osport_init_stack true mem0 0x20002000 256 0x08000101 0x08000201
  let m := r.2.store32 0x20000210 r.1
  let m := m.store32 0x20000100 0x20000200
  let m := m.store32 0x20000104 0x20000210
  { m with stores := [], loads := [] }

/-- Example registers of the running thread A. -/
def demoRegs : Reg → Nat
  | .r4 => 0x44 | .r5 => 0x55 | .r6 => 0x66 | .r7 => 0x77
  | .r8 => 0x88 | .r9 => 0x99 | .r10 => 0xAA | .r11 => 0xBB
  | .lr => 0xFFFFFFFD
  | _ => 0

/-- Example entry state of a handler: thread A runs with `psp = 0x20001000`. -/
def demoCpu : Cpu :=
  { regs := demoRegs, msp := 0x20003F00, psp := 0x20001000, primask := false,
    branch := none, mem := demoMem, control := 0 }

/-- Example entry state of a later switch: after `demoCpu` was switched to
thread B, the scheduler selects thread A again (`g_sch.p_next = 0x20000200`). -/
def demoCpu2 : Cpu :=
  let t := run (isr_pendsv demoLink) demoCpu
  { t with
    branch := none
    mem := { t.mem.store32 demoLink.pp_next 0x20000200 with stores := [], loads := [] } }

/-- Example entry state of the bootstrap: thread B is the first thread. -/
def demoBootCpu : Cpu :=
  { regs := fun _ => 0, msp := 0x20003F00, psp := 0, primask := false, branch := none,
    mem := { demoMem.store32 demoLink.pp_current 0x20000210 with stores := [], loads := [] },
    control := 0 }


/-- Example entry state of a self-switch: thread B is current and next, its
saved-stack-pointer word still holds the frame address `0x200020C0` built by
`osport_init_stack`, and it runs with `psp = 0x20002080`. -/
def demoSelfCpu : Cpu :=
  { demoBootCpu with regs := demoRegs, psp := 0x20002080 }

/-- Example entry state of a second self-switch: after the self-switch of
`demoSelfCpu` thread B runs on, loads `0x99` into `r4`, and the handler is
entered again with B current and next; memory is as the first run left it. -/
def demoSelfCpu2 : Cpu :=
  let t := run (isr_pendsv demoLink) demoSelfCpu
  { t with branch := none, regs := fun r => if r = .r4 then 0x99 else t.regs r }

/-! ## Memory lemmas -/

theorem bytes_store32 (m : Mem) (a v x : Nat) :
    (m.store32 a v).bytes x =
      if x = (a + 3) % WORD then v / 16777216 % 256
      else if x = (a + 2) % WORD then v / 65536 % 256
      else if x = (a + 1) % WORD then v / 256 % 256
      else if x = a % WORD then v % 256
      else m.bytes x := rfl

theorem stores_store32 (m : Mem) (a v : Nat) :
    (m.store32 a v).stores =
      (a + 3) % WORD :: (a + 2) % WORD :: (a + 1) % WORD :: a % WORD :: m.stores := rfl

theorem loads_store32 (m : Mem) (a v : Nat) : (m.store32 a v).loads = m.loads := rfl

theorem bytes_store32_of_ne (m : Mem) (a v x : Nat)
    (h : ∀ i, i < 4 → x ≠ (a + i) % WORD) : (m.store32 a v).bytes x = m.bytes x := by
  have h0 := h 0 (by omega)
  have h1 := h 1 (by omega)
  have h2 := h 2 (by omega)
  have h3 := h 3 (by omega)
  simp only [Nat.add_zero] at h0
  simp [bytes_store32, h0, h1, h2, h3]

theorem load32_store32_same (m : Mem) (a v : Nat) :
    (m.store32 a v).load32 a = v % WORD := by
  have e1 : (a + 1) % WORD ≠ (a + 3) % WORD := by simp only [WORD]; omega
  have e2 : (a + 1) % WORD ≠ (a + 2) % WORD := by simp only [WORD]; omega
  have e3 : a % WORD ≠ (a + 3) % WORD := by simp only [WORD]; omega
  have e4 : a % WORD ≠ (a + 2) % WORD := by simp only [WORD]; omega
  have e5 : a % WORD ≠ (a + 1) % WORD := by simp only [WORD]; omega
  have e6 : (a + 2) % WORD ≠ (a + 3) % WORD := by simp only [WORD]; omega
  simp only [Mem.load32, Mem.load8, bytes_store32, e1, e2, e3, e4, e5, e6, if_true, if_false]
  simp only [Nat.mod_mod, WORD]
  omega

theorem load32_store32_of_disjoint (m : Mem) (a b v : Nat)
    (h : ∀ i, i < 4 → ∀ j, j < 4 → (b + i) % WORD ≠ (a + j) % WORD) :
    (m.store32 a v).load32 b = m.load32 b := by
  have k0 : (m.store32 a v).bytes (b % WORD) = m.bytes (b % WORD) :=
    bytes_store32_of_ne m a v _ (fun j hj => by simpa using h 0 (by omega) j hj)
  have k1 := bytes_store32_of_ne m a v _ (h 1 (by omega))
  have k2 := bytes_store32_of_ne m a v _ (h 2 (by omega))
  have k3 := bytes_store32_of_ne m a v _ (h 3 (by omega))
  simp only [Mem.load32, Mem.load8, k0, k1, k2, k3]

theorem load32_mod (m : Mem) (a : Nat) : m.load32 (a % WORD) = m.load32 a := by
  have h : ∀ k, (a % WORD + k) % WORD = (a + k) % WORD := fun k => Nat.mod_add_mod a WORD k
  simp only [Mem.load32, Mem.load8, h, Nat.mod_mod]

theorem store32_mod (m : Mem) (a v : Nat) : m.store32 (a % WORD) v = m.store32 a v := by
  have h : ∀ k, (a % WORD + k) % WORD = (a + k) % WORD := fun k => Nat.mod_add_mod a WORD k
  simp only [Mem.store32, Mem.store8, h, Nat.mod_mod]

theorem logLoad32_mod (m : Mem) (a : Nat) : m.logLoad32 (a % WORD) = m.logLoad32 a := by
  have h : ∀ k, (a % WORD + k) % WORD = (a + k) % WORD := fun k => Nat.mod_add_mod a WORD k
  simp only [Mem.logLoad32, h, Nat.mod_mod]

theorem load32_logLoad32 (m : Mem) (a b : Nat) : (m.logLoad32 a).load32 b = m.load32 b := rfl

theorem load32_logLoad32x4 (m : Mem) (a b : Nat) : (m.logLoad32x4 a).load32 b = m.load32 b := rfl

theorem bytes_logLoad32 (m : Mem) (a : Nat) : (m.logLoad32 a).bytes = m.bytes := rfl

theorem bytes_logLoad32x4 (m : Mem) (a : Nat) : (m.logLoad32x4 a).bytes = m.bytes := rfl

theorem stores_logLoad32 (m : Mem) (a : Nat) : (m.logLoad32 a).stores = m.stores := rfl

theorem stores_logLoad32x4 (m : Mem) (a : Nat) : (m.logLoad32x4 a).stores = m.stores := rfl

/-- A word that does not overlap the stored word keeps its value. -/
theorem load32_store32_of_sep (m : Mem) (a b v : Nat) (h : WordsDisjoint a b) :
    (m.store32 a v).load32 b = m.load32 b := by
  apply load32_store32_of_disjoint
  intro i hi j hj
  simp only [WordsDisjoint, WORD] at *
  omega

/-- A byte outside the stored word keeps its value. -/
theorem bytes_store32_of_outside (m : Mem) (a v x : Nat) (ha : a + 4 ≤ WORD)
    (h : x < a ∨ a + 4 ≤ x) : (m.store32 a v).bytes x = m.bytes x := by
  apply bytes_store32_of_ne
  intro i hi
  simp only [WORD] at *
  omega

theorem mem_stores_store32 (m : Mem) (a v x : Nat) (ha : a + 4 ≤ WORD) :
    x ∈ (m.store32 a v).stores ↔ (a ≤ x ∧ x < a + 4) ∨ x ∈ m.stores := by
  rw [stores_store32]
  simp only [List.mem_cons, WORD] at *
  constructor
  · rintro (h | h | h | h | h)
    · left; omega
    · left; omega
    · left; omega
    · left; omega
    · right; exact h
  · rintro (h | h)
    · have : x = a + 3 ∨ x = a + 2 ∨ x = a + 1 ∨ x = a := by omega
      rcases this with h | h | h | h
      · left; omega
      · right; left; omega
      · right; right; left; omega
      · right; right; right; left; omega
    · right; right; right; right; exact h

theorem load32_store32x4_of_avoid (m : Mem) (a v0 v1 v2 v3 w : Nat) (ha : a + 16 ≤ WORD)
    (h : WordAvoids w a (a + 16)) :
    (m.store32x4 a v0 v1 v2 v3).load32 w = m.load32 w := by
  simp only [WordAvoids, WORD] at *
  rw [Mem.store32x4, load32_store32_of_sep, load32_store32_of_sep, load32_store32_of_sep,
    load32_store32_of_sep] <;> simp only [WordsDisjoint, WORD] <;> omega

theorem bytes_store32x4_of_outside (m : Mem) (a v0 v1 v2 v3 x : Nat) (ha : a + 16 ≤ WORD)
    (h : x < a ∨ a + 16 ≤ x) : (m.store32x4 a v0 v1 v2 v3).bytes x = m.bytes x := by
  simp only [WORD] at *
  rw [Mem.store32x4, bytes_store32_of_outside, bytes_store32_of_outside,
    bytes_store32_of_outside, bytes_store32_of_outside] <;>
    first | omega | (simp only [WORD]; omega)

theorem load32_store32x4_values (m : Mem) (a v0 v1 v2 v3 : Nat) (ha : a + 16 ≤ WORD) :
    (m.store32x4 a v0 v1 v2 v3).load32 a = v0 % WORD ∧
    (m.store32x4 a v0 v1 v2 v3).load32 (a + 4) = v1 % WORD ∧
    (m.store32x4 a v0 v1 v2 v3).load32 (a + 8) = v2 % WORD ∧
    (m.store32x4 a v0 v1 v2 v3).load32 (a + 12) = v3 % WORD := by
  have d : ∀ i j, i + 4 ≤ j → j + 4 ≤ 16 → WordsDisjoint (a + i) (a + j) ∧
      WordsDisjoint (a + j) (a + i) := by
    intro i j h1 h2
    simp only [WordsDisjoint, WORD] at *
    omega
  have d0 : ∀ j, 4 ≤ j → j + 4 ≤ 16 → WordsDisjoint (a + j) a := by
    intro j h1 h2
    simp only [WordsDisjoint, WORD] at *
    omega
  refine ⟨?_, ?_, ?_, ?_⟩
  · rw [Mem.store32x4, load32_store32_of_sep _ _ _ _ (d0 12 (by omega) (by omega)),
      load32_store32_of_sep _ _ _ _ (d0 8 (by omega) (by omega)),
      load32_store32_of_sep _ _ _ _ (d0 4 (by omega) (by omega)), load32_store32_same]
  · rw [Mem.store32x4, load32_store32_of_sep _ _ _ _ (d 4 12 (by omega) (by omega)).2,
      load32_store32_of_sep _ _ _ _ (d 4 8 (by omega) (by omega)).2, load32_store32_same]
  · rw [Mem.store32x4, load32_store32_of_sep _ _ _ _ (d 8 12 (by omega) (by omega)).2,
      load32_store32_same]
  · rw [Mem.store32x4, load32_store32_same]

/-! ## Frame-field lemmas -/

theorem offsetof_bound (f : FrameField) : offsetof f % 4 = 0 ∧ offsetof f + 4 ≤ 64 := by
  cases f <;> decide

theorem offsetof_injective (f g : FrameField) (h : offsetof f = offsetof g) : f = g := by
  cases f <;> cases g <;> first | rfl | exact absurd h (by decide)

theorem sizeof_stack_frame_t_eq : sizeof_stack_frame_t = 64 := by decide

theorem getField_setField_same (m : Mem) (p v : Nat) (f : FrameField) :
    getField (setField m p f v) p f = v % WORD :=
  load32_store32_same m _ v

theorem getField_setField_of_ne (m : Mem) (p v : Nat) (f g : FrameField) (h : g ≠ f) :
    getField (setField m p f v) p g = getField m p g := by
  apply load32_store32_of_disjoint
  intro i hi j hj
  have hf := offsetof_bound f
  have hg := offsetof_bound g
  have hne : offsetof g ≠ offsetof f := fun e => h (offsetof_injective g f e)
  simp only [WORD]
  omega

theorem bytes_setField_of_outside (m : Mem) (p v x : Nat) (f : FrameField)
    (h : ∀ k, k < 64 → x ≠ (p + k) % WORD) : (setField m p f v).bytes x = m.bytes x := by
  apply bytes_store32_of_ne
  intro i hi
  have hf := offsetof_bound f
  have := h (offsetof f + i) (by omega)
  rwa [Nat.add_assoc]

theorem stores_setField (m : Mem) (p v : Nat) (f : FrameField) :
    (setField m p f v).stores =
      (p + offsetof f + 3) % WORD :: (p + offsetof f + 2) % WORD ::
        (p + offsetof f + 1) % WORD :: (p + offsetof f) % WORD :: m.stores := rfl

theorem osport_init_stack_fst (debug : Bool) (m : Mem) (p n E R : Nat) :
    (osport_init_stack debug m p n E R).1 = ((p + n % 65536) % WORD + (WORD - 64)) % WORD := rfl

theorem osport_init_stack_snd (debug : Bool) (m : Mem) (p n E R : Nat) :
    (osport_init_stack debug m p n E R).2 =
      setField (setField (setField
        (if debug then debugFill m (osport_init_stack debug m p n E R).1 else m)
        (osport_init_stack debug m p n E R).1 .psr INITIAL_PSR)
        (osport_init_stack debug m p n E R).1 .pc E)
        (osport_init_stack debug m p n E R).1 .lr R := rfl

/-! ## Store log of `osport_init_stack` -/

theorem storesSince_of_append (m m2 : Mem) (L : List Nat) (h : m2.stores = L ++ m.stores) :
    m.storesSince m2 = L := by
  simp [Mem.storesSince, h]

theorem mem_field_bytes (q x : Nat) (f : FrameField)
    (h : x ∈ [(q + offsetof f + 3) % WORD, (q + offsetof f + 2) % WORD,
        (q + offsetof f + 1) % WORD, (q + offsetof f) % WORD]) :
    ∃ k, k < 64 ∧ x = (q + k) % WORD := by
  have hf := offsetof_bound f
  simp only [List.mem_cons, List.mem_singleton, List.mem_nil_iff, or_false] at h
  rcases h with h | h | h | h
  · exact ⟨offsetof f + 3, by omega, by rw [h, Nat.add_assoc]⟩
  · exact ⟨offsetof f + 2, by omega, by rw [h, Nat.add_assoc]⟩
  · exact ⟨offsetof f + 1, by omega, by rw [h, Nat.add_assoc]⟩
  · exact ⟨offsetof f, by omega, h⟩

theorem storesSince_init_debug (m : Mem) (p n E R : Nat) :
    m.storesSince (osport_init_stack true m p n E R).2 =
      ([FrameField.lr, .pc, .psr, .r12, .r11, .r10, .r9, .r8, .r7, .r6, .r5, .r4,
          .r3, .r2, .r1, .r0].flatMap fun f =>
        [((osport_init_stack true m p n E R).1 + offsetof f + 3) % WORD,
         ((osport_init_stack true m p n E R).1 + offsetof f + 2) % WORD,
         ((osport_init_stack true m p n E R).1 + offsetof f + 1) % WORD,
         ((osport_init_stack true m p n E R).1 + offsetof f) % WORD]) :=
  storesSince_of_append _ _ _ rfl

theorem storesSince_init_nodebug (m : Mem) (p n E R : Nat) :
    m.storesSince (osport_init_stack false m p n E R).2 =
      ([FrameField.lr, .pc, .psr].flatMap fun f =>
        [((osport_init_stack false m p n E R).1 + offsetof f + 3) % WORD,
         ((osport_init_stack false m p n E R).1 + offsetof f + 2) % WORD,
         ((osport_init_stack false m p n E R).1 + offsetof f + 1) % WORD,
         ((osport_init_stack false m p n E R).1 + offsetof f) % WORD]) :=
  storesSince_of_append _ _ _ rfl

theorem mem_storesSince_init (debug : Bool) (m : Mem) (p n E R x : Nat)
    (h : x ∈ m.storesSince (osport_init_stack debug m p n E R).2) :
    ∃ k, k < 64 ∧ x = ((osport_init_stack debug m p n E R).1 + k) % WORD := by
  cases debug
  · rw [storesSince_init_nodebug, List.mem_flatMap] at h
    obtain ⟨f, -, hx⟩ := h
    exact mem_field_bytes _ _ f hx
  · rw [storesSince_init_debug, List.mem_flatMap] at h
    obtain ⟨f, -, hx⟩ := h
    exact mem_field_bytes _ _ f hx

theorem frame_member_at (j : Nat) (h : j < 16) :
    ∃ f, f ∈ [FrameField.lr, .pc, .psr, .r12, .r11, .r10, .r9, .r8, .r7, .r6, .r5, .r4,
          .r3, .r2, .r1, .r0] ∧ offsetof f = 4 * j := by
  revert j
  decide

theorem storesSince_init_debug_covers (m : Mem) (p n E R k : Nat) (hk : k < 64) :
    ((osport_init_stack true m p n E R).1 + k) % WORD ∈
      m.storesSince (osport_init_stack true m p n E R).2 := by
  rw [storesSince_init_debug, List.mem_flatMap]
  obtain ⟨f, hf, hoff⟩ := frame_member_at (k / 4) (by omega)
  refine ⟨f, hf, ?_⟩
  have h4 : k % 4 < 4 := Nat.mod_lt _ (by decide)
  have hk4 : k = offsetof f + k % 4 := by omega
  simp only [List.mem_cons, List.mem_singleton]
  have e : ∀ i, (osport_init_stack true m p n E R).1 + (offsetof f + i)
      = (osport_init_stack true m p n E R).1 + offsetof f + i := fun i => (Nat.add_assoc _ _ _).symm
  rw [hk4, e]
  generalize k % 4 = i at h4
  interval_cases i <;> simp

theorem bytes_init_of_outside (debug : Bool) (m : Mem) (p n E R x : Nat)
    (hx : ∀ k, k < 64 → x ≠ ((osport_init_stack debug m p n E R).1 + k) % WORD) :
    (osport_init_stack debug m p n E R).2.bytes x = m.bytes x := by
  have key := fun mm v f =>
    bytes_setField_of_outside mm (osport_init_stack debug m p n E R).1 v x f hx
  rw [osport_init_stack_snd]
  cases debug <;> simp only [debugFill, key, if_true, if_false, Bool.false_eq_true]

theorem getField_init_debug (m : Mem) (p n E R : Nat) :
    stack_frame_s.map (getField (osport_init_stack true m p n E R).2
        (osport_init_stack true m p n E R).1) =
      [0x1008, 0x1009, 0x100A, 0x100B, 0x1004, 0x1005, 0x1006, 0x1007,
       0x1000, 0x1001, 0x1002, 0x1003, 0x100C, R % WORD, E % WORD, 0x01000000] := by
  rw [osport_init_stack_snd]
  simp only [stack_frame_s, List.map, debugFill, if_true, getField_setField_same,
    getField_setField_of_ne, ne_eq, reduceCtorEq, not_false_eq_true, INITIAL_PSR, WORD,
    Nat.reduceMod]

/-! ## Closed forms of `isr_pendsv` -/

theorem run_append (p q : List Instr) (s : Cpu) : run (p ++ q) s = run q (run p s) := by
  simp [run, List.foldl_append]

/-- Closed form of the save phase of `isr_pendsv`: lock, then store `r4..r7`
at `[psp - 16, psp)` and `r8..r11` at `[psp - 32, psp - 16)`. -/
theorem pendsv_save (s : Cpu) (hlo : 32 ≤ s.psp) (hhi : s.psp < WORD) :
    run [.dsb, .isb, .cpsid_i, .mrs .r2 .psp, .sub_imm .r2 16, .stmia_r4_r7 .r2,
         .mov .r7 .r11, .mov .r6 .r10, .mov .r5 .r9, .mov .r4 .r8, .sub_imm .r2 32,
         .stmia_r4_r7 .r2, .sub_imm .r2 16] s
      = { s with
          primask := true
          regs := fun r => match r with
            | .r2 => s.psp - 32
            | .r4 => s.regs .r8 | .r5 => s.regs .r9 | .r6 => s.regs .r10 | .r7 => s.regs .r11
            | r => s.regs r
          mem := (s.mem.store32x4 (s.psp - 16) (s.regs .r4) (s.regs .r5) (s.regs .r6)
                    (s.regs .r7)).store32x4 (s.psp - 32) (s.regs .r8) (s.regs .r9)
                    (s.regs .r10) (s.regs .r11) } := by
  have a1 : (s.psp + (WORD - 16 % WORD)) % WORD = s.psp - 16 := by simp only [WORD] at *; omega
  have a5 : (s.psp - 16 + 16) % WORD = s.psp := by simp only [WORD] at *; omega
  have a6 : (s.psp + (WORD - 32 % WORD)) % WORD = s.psp - 32 := by simp only [WORD] at *; omega
  have a10 : (s.psp - 32 + 16) % WORD = s.psp - 16 := by simp only [WORD] at *; omega
  have a11 : (s.psp - 16 + (WORD - 16 % WORD)) % WORD = s.psp - 32 := by
    simp only [WORD] at *; omega
  simp only [run, List.foldl, exec, Cpu.set, Cpu.sys, reduceCtorEq, if_true, if_false,
    a1, a5, a6, a10, a11]
  simp only [Cpu.mk.injEq, and_true, true_and]
  funext r
  cases r <;> rfl

/-- Closed form of the hand-over of `isr_pendsv`: store the outgoing stack
pointer through `g_sch.p_current`, fetch `g_sch.p_next` and its stack pointer. -/
theorem pendsv_select (L : LinkSyms) (t : Cpu) :
    run [.ldr_lit .r0 L.pp_current, .ldr .r1 .r0, .str .r2 .r1,
         .ldr_lit .r1 L.pp_next, .ldr .r1 .r1, .ldr .r2 .r1] t
      = { t with
          regs := fun r => match r with
            | .r0 => L.pp_current % WORD
            | .r1 => ((t.mem.logLoad32 L.pp_current).store32 (t.mem.load32 L.pp_current)
                        (t.regs .r2)).load32 L.pp_next
            | .r2 => ((t.mem.logLoad32 L.pp_current).store32 (t.mem.load32 L.pp_current)
                        (t.regs .r2)).load32
                      (((t.mem.logLoad32 L.pp_current).store32 (t.mem.load32 L.pp_current)
                        (t.regs .r2)).load32 L.pp_next)
            | r => t.regs r
          mem := ((((t.mem.logLoad32 L.pp_current).store32 (t.mem.load32 L.pp_current)
                    (t.regs .r2)).logLoad32 L.pp_next).logLoad32
                  (((t.mem.logLoad32 L.pp_current).store32 (t.mem.load32 L.pp_current)
                    (t.regs .r2)).load32 L.pp_next)) } := by
  simp only [run, List.foldl, exec, Cpu.set, Cpu.sys, reduceCtorEq, if_true, if_false,
    load32_mod, store32_mod, logLoad32_mod, load32_logLoad32]
  simp only [Cpu.mk.injEq, and_true, true_and]
  funext r
  cases r <;> rfl

/-- Closed form of the restore phase of `isr_pendsv`: pop `r8..r11` and
`r4..r7`, set PSP, publish the incoming thread, unlock and return. -/
theorem pendsv_restore (u : Cpu) :
    run [.ldmia_r4_r7 .r2, .mov .r11 .r7, .mov .r10 .r6, .mov .r9 .r5, .mov .r8 .r4,
         .ldmia_r4_r7 .r2, .msr .psp .r2, .str .r1 .r0, .cpsie_i, .bx .lr] u
      = { u with
          primask := false
          branch := some (u.regs .lr)
          psp := ((u.regs .r2 + 16) % WORD + 16) % WORD
          regs := fun r => match r with
            | .r2 => ((u.regs .r2 + 16) % WORD + 16) % WORD
            | .r4 => u.mem.load32 ((u.regs .r2 + 16) % WORD)
            | .r5 => u.mem.load32 ((u.regs .r2 + 16) % WORD + 4)
            | .r6 => u.mem.load32 ((u.regs .r2 + 16) % WORD + 8)
            | .r7 => u.mem.load32 ((u.regs .r2 + 16) % WORD + 12)
            | .r8 => u.mem.load32 (u.regs .r2)
            | .r9 => u.mem.load32 (u.regs .r2 + 4)
            | .r10 => u.mem.load32 (u.regs .r2 + 8)
            | .r11 => u.mem.load32 (u.regs .r2 + 12)
            | r => u.regs r
          mem := ((u.mem.logLoad32x4 (u.regs .r2)).logLoad32x4
                    ((u.regs .r2 + 16) % WORD)).store32 (u.regs .r0) (u.regs .r1) } := by
  simp only [run, List.foldl, exec, Cpu.set, Cpu.sys, reduceCtorEq, if_true, if_false,
    load32_logLoad32x4]
  simp only [Cpu.mk.injEq, and_true, true_and]
  funext r
  cases r <;> rfl

/-- One run of `isr_pendsv` in closed form, with the intermediate memories and
the values it loads named by equations. -/
theorem isr_pendsv_closed (L : LinkSyms) (s : Cpu) (hlo : 32 ≤ s.psp) (hhi : s.psp < WORD)
    (M1 M2 : Mem) (a b sp : Nat)
    (hM1 : M1 = (s.mem.store32x4 (s.psp - 16) (s.regs .r4) (s.regs .r5) (s.regs .r6)
                    (s.regs .r7)).store32x4 (s.psp - 32) (s.regs .r8) (s.regs .r9)
                    (s.regs .r10) (s.regs .r11))
    (ha : a = M1.load32 L.pp_current)
    (hM2 : M2 = (M1.logLoad32 L.pp_current).store32 a (s.psp - 32))
    (hb : b = M2.load32 L.pp_next)
    (hsp : sp = M2.load32 b) :
    run (isr_pendsv L) s
      = { s with
          primask := false
          branch := some (s.regs .lr)
          psp := ((sp + 16) % WORD + 16) % WORD
          regs := fun r => match r with
            | .r0 => L.pp_current % WORD
            | .r1 => b
            | .r2 => ((sp + 16) % WORD + 16) % WORD
            | .r4 => M2.load32 ((sp + 16) % WORD)
            | .r5 => M2.load32 ((sp + 16) % WORD + 4)
            | .r6 => M2.load32 ((sp + 16) % WORD + 8)
            | .r7 => M2.load32 ((sp + 16) % WORD + 12)
            | .r8 => M2.load32 sp
            | .r9 => M2.load32 (sp + 4)
            | .r10 => M2.load32 (sp + 8)
            | .r11 => M2.load32 (sp + 12)
            | r => s.regs r
          mem := ((((M2.logLoad32 L.pp_next).logLoad32 b).logLoad32x4 sp).logLoad32x4
                    ((sp + 16) % WORD)).store32 L.pp_current b } := by
  have split : isr_pendsv L =
      [.dsb, .isb, .cpsid_i, .mrs .r2 .psp, .sub_imm .r2 16, .stmia_r4_r7 .r2,
         .mov .r7 .r11, .mov .r6 .r10, .mov .r5 .r9, .mov .r4 .r8, .sub_imm .r2 32,
         .stmia_r4_r7 .r2, .sub_imm .r2 16] ++
      ([.ldr_lit .r0 L.pp_current, .ldr .r1 .r0, .str .r2 .r1,
         .ldr_lit .r1 L.pp_next, .ldr .r1 .r1, .ldr .r2 .r1] ++
       [.ldmia_r4_r7 .r2, .mov .r11 .r7, .mov .r10 .r6, .mov .r9 .r5, .mov .r8 .r4,
         .ldmia_r4_r7 .r2, .msr .psp .r2, .str .r1 .r0, .cpsie_i, .bx .lr]) := rfl
  subst hsp hb hM2 ha hM1
  rw [split, run_append, run_append, pendsv_save s hlo hhi, pendsv_select, pendsv_restore]
  simp only [load32_logLoad32, load32_logLoad32x4, store32_mod]
  simp only [Cpu.mk.injEq, and_true, true_and]
  funext r
  cases r <;> rfl

/-! ## The saved context of `isr_pendsv` -/

theorem load32_lt (m : Mem) (a : Nat) : m.load32 a < WORD := by
  have h0 : m.load8 a < 256 := Nat.mod_lt _ (by decide)
  have h1 : m.load8 (a + 1) < 256 := Nat.mod_lt _ (by decide)
  have h2 : m.load8 (a + 2) < 256 := Nat.mod_lt _ (by decide)
  have h3 : m.load8 (a + 3) < 256 := Nat.mod_lt _ (by decide)
  simp only [Mem.load32, WORD]
  omega

/-- Under the entry layout the handle read by the save phase is the entry value
of `g_sch.p_current`. -/
theorem pendsvSaved_eq (L : LinkSyms) (s : Cpu) (h : PendsvLayout L s) :
    pendsvSaved L s =
      (((s.mem.store32x4 (s.psp - 16) (s.regs .r4) (s.regs .r5) (s.regs .r6)
          (s.regs .r7)).store32x4 (s.psp - 32) (s.regs .r8) (s.regs .r9)
          (s.regs .r10) (s.regs .r11)).logLoad32 L.pp_current).store32
        (s.mem.load32 L.pp_current) (s.psp - 32) := by
  obtain ⟨hlo, hhi, hc, -⟩ := h
  have e : ((s.mem.store32x4 (s.psp - 16) (s.regs .r4) (s.regs .r5) (s.regs .r6)
          (s.regs .r7)).store32x4 (s.psp - 32) (s.regs .r8) (s.regs .r9)
          (s.regs .r10) (s.regs .r11)).load32 L.pp_current = s.mem.load32 L.pp_current := by
    simp only [WordAvoids, WORD] at *
    rw [load32_store32x4_of_avoid, load32_store32x4_of_avoid] <;>
      simp only [WordAvoids, WORD] <;> omega
  simp only [pendsvSaved, e]

theorem load32_pendsvSaved_of_avoid (L : LinkSyms) (s : Cpu) (h : PendsvLayout L s) (w : Nat)
    (hw : WordAvoids w (s.psp - 32) s.psp)
    (hwa : WordsDisjoint (s.mem.load32 L.pp_current) w) :
    (pendsvSaved L s).load32 w = s.mem.load32 w := by
  rw [pendsvSaved_eq L s h, load32_store32_of_sep _ _ _ _ hwa, load32_logLoad32]
  obtain ⟨hlo, hhi, -⟩ := h
  simp only [WordAvoids, WORD] at *
  rw [load32_store32x4_of_avoid, load32_store32x4_of_avoid] <;>
    simp only [WordAvoids, WORD] <;> omega

theorem bytes_pendsvSaved_of_outside (L : LinkSyms) (s : Cpu) (h : PendsvLayout L s) (x : Nat)
    (hx : x < s.psp - 32 ∨ s.psp ≤ x)
    (hxa : x < s.mem.load32 L.pp_current ∨ s.mem.load32 L.pp_current + 4 ≤ x) :
    (pendsvSaved L s).bytes x = s.mem.bytes x := by
  rw [pendsvSaved_eq L s h]
  obtain ⟨hlo, hhi, -, -, -, ha, -⟩ := h
  rw [bytes_store32_of_outside _ _ _ _ ha.1 hxa, bytes_logLoad32]
  simp only [WORD] at *
  rw [bytes_store32x4_of_outside, bytes_store32x4_of_outside] <;>
    first | omega | (simp only [WORD]; omega)

theorem stores_store32_ext (m0 m : Mem) (a v : Nat) (l : List Nat)
    (hl : m.stores = l ++ m0.stores) (ha : a + 4 ≤ WORD) :
    ∃ l2, (m.store32 a v).stores = l2 ++ m0.stores ∧
      ∀ x, x ∈ l2 ↔ (a ≤ x ∧ x < a + 4) ∨ x ∈ l := by
  refine ⟨[(a + 3) % WORD, (a + 2) % WORD, (a + 1) % WORD, a % WORD] ++ l, ?_, ?_⟩
  · rw [stores_store32, hl]
    rfl
  · intro x
    have := mem_stores_store32 { bytes := m.bytes, stores := l, loads := m.loads } a v x ha
    rw [stores_store32] at this
    exact this

theorem stores_store32x4_ext (m0 m : Mem) (a v0 v1 v2 v3 : Nat) (l : List Nat)
    (hl : m.stores = l ++ m0.stores) (ha : a + 16 ≤ WORD) :
    ∃ l2, (m.store32x4 a v0 v1 v2 v3).stores = l2 ++ m0.stores ∧
      ∀ x, x ∈ l2 ↔ (a ≤ x ∧ x < a + 16) ∨ x ∈ l := by
  have h0 : a + 4 ≤ WORD := by simp only [WORD] at *; omega
  have h1 : a + 4 + 4 ≤ WORD := by simp only [WORD] at *; omega
  have h2 : a + 8 + 4 ≤ WORD := by simp only [WORD] at *; omega
  have h3 : a + 12 + 4 ≤ WORD := by simp only [WORD] at *; omega
  obtain ⟨l1, e1, k1⟩ := stores_store32_ext m0 m a v0 l hl h0
  obtain ⟨l2, e2, k2⟩ := stores_store32_ext m0 _ (a + 4) v1 l1 e1 h1
  obtain ⟨l3, e3, k3⟩ := stores_store32_ext m0 _ (a + 8) v2 l2 e2 h2
  obtain ⟨l4, e4, k4⟩ := stores_store32_ext m0 _ (a + 12) v3 l3 e3 h3
  refine ⟨l4, e4, fun x => ?_⟩
  rw [k4, k3, k2, k1]
  constructor
  · rintro (h | h | h | h | h)
    · left; omega
    · left; omega
    · left; omega
    · left; omega
    · right; exact h
  · rintro (h | h)
    · have : (a + 12 ≤ x ∧ x < a + 12 + 4) ∨ (a + 8 ≤ x ∧ x < a + 8 + 4) ∨
          (a + 4 ≤ x ∧ x < a + 4 + 4) ∨ (a ≤ x ∧ x < a + 4) := by omega
      rcases this with h | h | h | h
      · left; exact h
      · right; left; exact h
      · right; right; left; exact h
      · right; right; right; left; exact h
    · right; right; right; right; exact h

theorem stores_pendsvSaved (L : LinkSyms) (s : Cpu) (h : PendsvLayout L s) :
    ∃ l, (pendsvSaved L s).stores = l ++ s.mem.stores ∧
      ∀ x, x ∈ l ↔ (s.psp - 32 ≤ x ∧ x < s.psp) ∨
        (s.mem.load32 L.pp_current ≤ x ∧ x < s.mem.load32 L.pp_current + 4) := by
  rw [pendsvSaved_eq L s h]
  obtain ⟨hlo, hhi, -, -, -, ha, -⟩ := h
  have h1 : s.psp - 32 + 16 ≤ WORD := by simp only [WORD] at *; omega
  have h2 : s.psp - 16 + 16 ≤ WORD := by simp only [WORD] at *; omega
  obtain ⟨l1, e1, k1⟩ := stores_store32x4_ext s.mem s.mem (s.psp - 16) (s.regs .r4)
    (s.regs .r5) (s.regs .r6) (s.regs .r7) [] rfl h2
  obtain ⟨l2, e2, k2⟩ := stores_store32x4_ext s.mem _ (s.psp - 32) (s.regs .r8)
    (s.regs .r9) (s.regs .r10) (s.regs .r11) l1 e1 h1
  obtain ⟨l3, e3, k3⟩ := stores_store32_ext s.mem
    (((s.mem.store32x4 (s.psp - 16) (s.regs .r4) (s.regs .r5) (s.regs .r6)
          (s.regs .r7)).store32x4 (s.psp - 32) (s.regs .r8) (s.regs .r9)
          (s.regs .r10) (s.regs .r11)).logLoad32 L.pp_current)
    (s.mem.load32 L.pp_current) (s.psp - 32) l2 e2 ha.1
  refine ⟨l3, e3, fun x => ?_⟩
  rw [k3, k2, k1]
  simp only [List.not_mem_nil, or_false]
  omega

/-- The save area holds the outgoing registers in frame order and the handle
holds the new stack pointer. -/
theorem load32_pendsvSaved_area (L : LinkSyms) (s : Cpu) (h : PendsvLayout L s) :
    (pendsvSaved L s).load32 (s.psp - 32) = s.regs .r8 % WORD ∧
    (pendsvSaved L s).load32 (s.psp - 32 + 4) = s.regs .r9 % WORD ∧
    (pendsvSaved L s).load32 (s.psp - 32 + 8) = s.regs .r10 % WORD ∧
    (pendsvSaved L s).load32 (s.psp - 32 + 12) = s.regs .r11 % WORD ∧
    (pendsvSaved L s).load32 (s.psp - 32 + 16) = s.regs .r4 % WORD ∧
    (pendsvSaved L s).load32 (s.psp - 32 + 20) = s.regs .r5 % WORD ∧
    (pendsvSaved L s).load32 (s.psp - 32 + 24) = s.regs .r6 % WORD ∧
    (pendsvSaved L s).load32 (s.psp - 32 + 28) = s.regs .r7 % WORD ∧
    (pendsvSaved L s).load32 (s.mem.load32 L.pp_current) = s.psp - 32 := by
  rw [pendsvSaved_eq L s h]
  obtain ⟨hlo, hhi, -, -, -, ha, -⟩ := h
  have h1 : s.psp - 32 + 16 ≤ WORD := by simp only [WORD] at *; omega
  have h2 : s.psp - 16 + 16 ≤ WORD := by simp only [WORD] at *; omega
  have sep : ∀ k, k + 4 ≤ 32 → WordsDisjoint (s.mem.load32 L.pp_current) (s.psp - 32 + k) := by
    intro k hk
    simp only [WordsDisjoint, WordAvoids, WORD] at *
    omega
  have av : ∀ k, k + 4 ≤ 16 →
      WordAvoids (s.psp - 16 + k) (s.psp - 32) (s.psp - 32 + 16) := by
    intro k hk
    simp only [WordAvoids, WORD] at *
    omega
  have lo := load32_store32x4_values (s.mem.store32x4 (s.psp - 16) (s.regs .r4) (s.regs .r5)
    (s.regs .r6) (s.regs .r7)) (s.psp - 32) (s.regs .r8) (s.regs .r9) (s.regs .r10)
    (s.regs .r11) h1
  have hi := load32_store32x4_values s.mem (s.psp - 16) (s.regs .r4) (s.regs .r5)
    (s.regs .r6) (s.regs .r7) h2
  have e16 : s.psp - 32 + 16 = s.psp - 16 := by omega
  have e20 : s.psp - 32 + 20 = s.psp - 16 + 4 := by omega
  have e24 : s.psp - 32 + 24 = s.psp - 16 + 8 := by omega
  have e28 : s.psp - 32 + 28 = s.psp - 16 + 12 := by omega
  refine ⟨?_, ?_, ?_, ?_, ?_, ?_, ?_, ?_, ?_⟩
  · have sep0 : WordsDisjoint (s.mem.load32 L.pp_current) (s.psp - 32) := sep 0 (by omega)
    rw [load32_store32_of_sep _ _ _ _ sep0, load32_logLoad32]
    exact lo.1
  · rw [load32_store32_of_sep _ _ _ _ (sep 4 (by omega)), load32_logLoad32]
    exact lo.2.1
  · rw [load32_store32_of_sep _ _ _ _ (sep 8 (by omega)), load32_logLoad32]
    exact lo.2.2.1
  · rw [load32_store32_of_sep _ _ _ _ (sep 12 (by omega)), load32_logLoad32]
    exact lo.2.2.2
  · have av0 : WordAvoids (s.psp - 16) (s.psp - 32) (s.psp - 32 + 16) := av 0 (by omega)
    rw [load32_store32_of_sep _ _ _ _ (sep 16 (by omega)), load32_logLoad32, e16,
      load32_store32x4_of_avoid _ _ _ _ _ _ _ h1 av0]
    exact hi.1
  · rw [load32_store32_of_sep _ _ _ _ (sep 20 (by omega)), load32_logLoad32, e20,
      load32_store32x4_of_avoid _ _ _ _ _ _ _ h1 (av 4 (by omega))]
    exact hi.2.1
  · rw [load32_store32_of_sep _ _ _ _ (sep 24 (by omega)), load32_logLoad32, e24,
      load32_store32x4_of_avoid _ _ _ _ _ _ _ h1 (av 8 (by omega))]
    exact hi.2.2.1
  · rw [load32_store32_of_sep _ _ _ _ (sep 28 (by omega)), load32_logLoad32, e28,
      load32_store32x4_of_avoid _ _ _ _ _ _ _ h1 (av 12 (by omega))]
    exact hi.2.2.2
  · rw [load32_store32_same]
    simp only [WORD] at *
    omega

/-! ## Effect of one run of `isr_pendsv` -/

/-- One run of `isr_pendsv` in terms of the saved context. -/
theorem isr_pendsv_run (L : LinkSyms) (s : Cpu) (hlo : 32 ≤ s.psp) (hhi : s.psp < WORD)
    (b sp : Nat) (hb : b = (pendsvSaved L s).load32 L.pp_next)
    (hsp : sp = (pendsvSaved L s).load32 b) :
    (run (isr_pendsv L) s).mem =
        (((((pendsvSaved L s).logLoad32 L.pp_next).logLoad32 b).logLoad32x4 sp).logLoad32x4
          ((sp + 16) % WORD)).store32 L.pp_current b ∧
    (run (isr_pendsv L) s).psp = ((sp + 16) % WORD + 16) % WORD ∧
    (run (isr_pendsv L) s).msp = s.msp ∧
    (run (isr_pendsv L) s).primask = false ∧
    (run (isr_pendsv L) s).branch = some (s.regs .lr) ∧
    (run (isr_pendsv L) s).regs .r8 = (pendsvSaved L s).load32 sp ∧
    (run (isr_pendsv L) s).regs .r9 = (pendsvSaved L s).load32 (sp + 4) ∧
    (run (isr_pendsv L) s).regs .r10 = (pendsvSaved L s).load32 (sp + 8) ∧
    (run (isr_pendsv L) s).regs .r11 = (pendsvSaved L s).load32 (sp + 12) ∧
    (run (isr_pendsv L) s).regs .r4 = (pendsvSaved L s).load32 ((sp + 16) % WORD) ∧
    (run (isr_pendsv L) s).regs .r5 = (pendsvSaved L s).load32 ((sp + 16) % WORD + 4) ∧
    (run (isr_pendsv L) s).regs .r6 = (pendsvSaved L s).load32 ((sp + 16) % WORD + 8) ∧
    (run (isr_pendsv L) s).regs .r7 = (pendsvSaved L s).load32 ((sp + 16) % WORD + 12) ∧
    (run (isr_pendsv L) s).regs .r0 = L.pp_current % WORD ∧
    (run (isr_pendsv L) s).regs .r1 = b ∧
    (run (isr_pendsv L) s).regs .r2 = ((sp + 16) % WORD + 16) % WORD ∧
    (run (isr_pendsv L) s).regs .r3 = s.regs .r3 ∧
    (run (isr_pendsv L) s).regs .r12 = s.regs .r12 ∧
    (run (isr_pendsv L) s).regs .lr = s.regs .lr := by
  rw [isr_pendsv_closed L s hlo hhi _ (pendsvSaved L s) _ b sp rfl rfl rfl hb hsp]
  exact ⟨rfl, rfl, rfl, rfl, rfl, rfl, rfl, rfl, rfl, rfl, rfl, rfl, rfl, rfl, rfl, rfl, rfl,
    rfl, rfl⟩


theorem loadsSince_of_append (m m2 : Mem) (l : List Nat) (h : m2.loads = l ++ m.loads) :
    m.loadsSince m2 = l := by
  simp [Mem.loadsSince, h]

/-- Under the entry layout the handler fetches the entry value of `g_sch.p_next`. -/
theorem pendsvSaved_load_next (L : LinkSyms) (s : Cpu) (h : PendsvLayout L s) :
    (pendsvSaved L s).load32 L.pp_next = s.mem.load32 L.pp_next := by
  obtain ⟨-, -, -, hn, -, -, -, han⟩ := id h
  exact load32_pendsvSaved_of_avoid L s h L.pp_next hn han

theorem loads_logLoad32_ext (m0 m : Mem) (a : Nat) (l : List Nat)
    (hl : m.loads = l ++ m0.loads) :
    (m.logLoad32 a).loads =
      ([(a + 3) % WORD, (a + 2) % WORD, (a + 1) % WORD, a % WORD] ++ l) ++ m0.loads := by
  rw [Mem.logLoad32, hl]
  rfl

theorem loads_logLoad32x4_ext (m0 m : Mem) (a : Nat) (l : List Nat)
    (hl : m.loads = l ++ m0.loads) :
    ∃ l2, (m.logLoad32x4 a).loads = l2 ++ m0.loads ∧ ∀ x, x ∈ l → x ∈ l2 := by
  have e1 := loads_logLoad32_ext m0 m a l hl
  have e2 := loads_logLoad32_ext m0 _ (a + 4) _ e1
  have e3 := loads_logLoad32_ext m0 _ (a + 8) _ e2
  have e4 := loads_logLoad32_ext m0 _ (a + 12) _ e3
  refine ⟨_, e4, fun x hx => ?_⟩
  simp only [List.mem_append, List.mem_cons]
  right; right; right; right
  exact hx

/-- Store log of one run of `isr_pendsv`. -/
theorem mem_storesSince_isr_pendsv (L : LinkSyms) (s : Cpu) (h : PendsvLayout L s) (x : Nat) :
    x ∈ s.mem.storesSince (run (isr_pendsv L) s).mem ↔
      (s.psp - 32 ≤ x ∧ x < s.psp) ∨
      (s.mem.load32 L.pp_current ≤ x ∧ x < s.mem.load32 L.pp_current + 4) ∨
      (L.pp_current ≤ x ∧ x < L.pp_current + 4) := by
  obtain ⟨hlo, hhi, hc, -⟩ := id h
  have hr := (isr_pendsv_run L s hlo hhi _ _ rfl rfl).1
  obtain ⟨l, e, k⟩ := stores_pendsvSaved L s h
  generalize (pendsvSaved L s).load32 L.pp_next = b at hr
  generalize (pendsvSaved L s).load32 b = sp at hr
  have e1 : (((((pendsvSaved L s).logLoad32 L.pp_next).logLoad32 b).logLoad32x4 sp).logLoad32x4
      ((sp + 16) % WORD)).stores = l ++ s.mem.stores := by
    rw [stores_logLoad32x4, stores_logLoad32x4, stores_logLoad32, stores_logLoad32]
    exact e
  obtain ⟨l2, e2, k2⟩ := stores_store32_ext s.mem _ L.pp_current b l e1 hc.1
  rw [hr, storesSince_of_append _ _ _ e2, k2, k]
  constructor
  · rintro (h | h | h)
    · right; right; exact h
    · left; exact h
    · right; left; exact h
  · rintro (h | h | h)
    · right; left; exact h
    · right; right; exact h
    · left; exact h

/-- Bytes outside the save area, the outgoing handle word and `g_sch.p_current`
keep their value over one run of `isr_pendsv`. -/
theorem bytes_isr_pendsv_of_outside (L : LinkSyms) (s : Cpu) (h : PendsvLayout L s) (x : Nat)
    (hx : x < s.psp - 32 ∨ s.psp ≤ x)
    (hxa : x < s.mem.load32 L.pp_current ∨ s.mem.load32 L.pp_current + 4 ≤ x)
    (hxc : x < L.pp_current ∨ L.pp_current + 4 ≤ x) :
    (run (isr_pendsv L) s).mem.bytes x = s.mem.bytes x := by
  obtain ⟨hlo, hhi, hc, -⟩ := id h
  rw [(isr_pendsv_run L s hlo hhi _ _ rfl rfl).1,
    bytes_store32_of_outside _ _ _ _ hc.1 hxc, bytes_logLoad32x4, bytes_logLoad32x4,
    bytes_logLoad32, bytes_logLoad32, bytes_pendsvSaved_of_outside L s h x hx hxa]

/-- Words outside the save area, the outgoing handle word and `g_sch.p_current`
keep their value over one run of `isr_pendsv`. -/
theorem load32_isr_pendsv_of_avoid (L : LinkSyms) (s : Cpu) (h : PendsvLayout L s) (w : Nat)
    (hw : WordAvoids w (s.psp - 32) s.psp)
    (hwa : WordsDisjoint (s.mem.load32 L.pp_current) w)
    (hwc : WordsDisjoint L.pp_current w) :
    (run (isr_pendsv L) s).mem.load32 w = s.mem.load32 w := by
  obtain ⟨hlo, hhi, -⟩ := id h
  rw [(isr_pendsv_run L s hlo hhi _ _ rfl rfl).1, load32_store32_of_sep _ _ _ _ hwc,
    load32_logLoad32x4, load32_logLoad32x4, load32_logLoad32, load32_logLoad32,
    load32_pendsvSaved_of_avoid L s h w hw hwa]

theorem wordsDisjoint_symm (v w : Nat) (h : WordsDisjoint v w) : WordsDisjoint w v := by
  simp only [WordsDisjoint] at *
  omega

/-- After one run of `isr_pendsv` the save area holds the registers the
outgoing thread had on entry, in frame order, and its handle holds `psp - 32`. -/
theorem load32_isr_pendsv_area (L : LinkSyms) (s : Cpu) (h : PendsvLayout L s) :
    (run (isr_pendsv L) s).mem.load32 (s.psp - 32) = s.regs .r8 % WORD ∧
    (run (isr_pendsv L) s).mem.load32 (s.psp - 32 + 4) = s.regs .r9 % WORD ∧
    (run (isr_pendsv L) s).mem.load32 (s.psp - 32 + 8) = s.regs .r10 % WORD ∧
    (run (isr_pendsv L) s).mem.load32 (s.psp - 32 + 12) = s.regs .r11 % WORD ∧
    (run (isr_pendsv L) s).mem.load32 (s.psp - 32 + 16) = s.regs .r4 % WORD ∧
    (run (isr_pendsv L) s).mem.load32 (s.psp - 32 + 20) = s.regs .r5 % WORD ∧
    (run (isr_pendsv L) s).mem.load32 (s.psp - 32 + 24) = s.regs .r6 % WORD ∧
    (run (isr_pendsv L) s).mem.load32 (s.psp - 32 + 28) = s.regs .r7 % WORD ∧
    (run (isr_pendsv L) s).mem.load32 (s.mem.load32 L.pp_current) = s.psp - 32 := by
  obtain ⟨hlo, hhi, hc, hn, hcn, ha, hac, han⟩ := id h
  have hr := (isr_pendsv_run L s hlo hhi _ _ rfl rfl).1
  have ar := load32_pendsvSaved_area L s h
  have sep : ∀ k, k + 4 ≤ 32 → WordsDisjoint L.pp_current (s.psp - 32 + k) := by
    intro k hk
    simp only [WordsDisjoint, WordAvoids, WORD] at *
    omega
  have sep0 : WordsDisjoint L.pp_current (s.psp - 32) := sep 0 (by omega)
  have key : ∀ w, WordsDisjoint L.pp_current w →
      (run (isr_pendsv L) s).mem.load32 w = (pendsvSaved L s).load32 w := by
    intro w hw
    rw [hr, load32_store32_of_sep _ _ _ _ hw, load32_logLoad32x4, load32_logLoad32x4,
      load32_logLoad32, load32_logLoad32]
  rw [key _ sep0, key _ (sep 4 (by omega)), key _ (sep 8 (by omega)), key _ (sep 12 (by omega)),
    key _ (sep 16 (by omega)), key _ (sep 20 (by omega)), key _ (sep 24 (by omega)),
    key _ (sep 28 (by omega)), key _ (wordsDisjoint_symm _ _ hac)]
  exact ar

theorem load32_congr_bytes (m1 m2 : Mem) (w : Nat) (hw : w + 4 ≤ WORD)
    (h : ∀ x, w ≤ x → x < w + 4 → m1.bytes x = m2.bytes x) : m1.load32 w = m2.load32 w := by
  have e0 : w % WORD = w := Nat.mod_eq_of_lt (by simp only [WORD] at *; omega)
  have e1 : (w + 1) % WORD = w + 1 := Nat.mod_eq_of_lt (by simp only [WORD] at *; omega)
  have e2 : (w + 2) % WORD = w + 2 := Nat.mod_eq_of_lt (by simp only [WORD] at *; omega)
  have e3 : (w + 3) % WORD = w + 3 := Nat.mod_eq_of_lt (by simp only [WORD] at *; omega)
  simp only [Mem.load32, Mem.load8, e0, e1, e2, e3, h w (by omega) (by omega),
    h (w + 1) (by omega) (by omega), h (w + 2) (by omega) (by omega),
    h (w + 3) (by omega) (by omega)]

/-! ## Closed form of `isr_svc` -/

/-- Closed form of one run of `isr_svc`. -/
theorem isr_svc_closed (L : LinkSyms) (s : Cpu) (a sp : Nat)
    (ha : a = s.mem.load32 L.pp_current) (hsp : sp = s.mem.load32 a) :
    run (isr_svc L) s
      = { s with
          primask := false
          branch := some 0xFFFFFFFD
          msp := L.main_stack_bottom % WORD
          psp := ((sp + 16) % WORD + 16) % WORD
          regs := fun r => match r with
            | .r0 => 0xFFFFFFFD
            | .r4 => s.mem.load32 ((sp + 16) % WORD)
            | .r5 => s.mem.load32 ((sp + 16) % WORD + 4)
            | .r6 => s.mem.load32 ((sp + 16) % WORD + 8)
            | .r7 => s.mem.load32 ((sp + 16) % WORD + 12)
            | .r8 => s.mem.load32 sp
            | .r9 => s.mem.load32 (sp + 4)
            | .r10 => s.mem.load32 (sp + 8)
            | .r11 => s.mem.load32 (sp + 12)
            | r => s.regs r
          mem := (((s.mem.logLoad32 L.pp_current).logLoad32 a).logLoad32x4 sp).logLoad32x4
                    ((sp + 16) % WORD) } := by
  subst hsp ha
  simp only [run, isr_svc, List.foldl, exec, Cpu.set, Cpu.sys, reduceCtorEq, if_true, if_false,
    load32_logLoad32, load32_logLoad32x4, load32_mod, logLoad32_mod]
  simp only [Cpu.mk.injEq, and_true, true_and]
  refine ⟨?_, rfl⟩
  funext r
  cases r <;> rfl

/-- Components of the state after one run of `isr_svc`. -/
theorem isr_svc_run (L : LinkSyms) (s : Cpu) (a sp : Nat)
    (ha : a = s.mem.load32 L.pp_current) (hsp : sp = s.mem.load32 a) :
    (run (isr_svc L) s).mem =
      (((s.mem.logLoad32 L.pp_current).logLoad32 a).logLoad32x4 sp).logLoad32x4
        ((sp + 16) % WORD) ∧
    (run (isr_svc L) s).psp = ((sp + 16) % WORD + 16) % WORD ∧
    (run (isr_svc L) s).msp = L.main_stack_bottom % WORD ∧
    (run (isr_svc L) s).primask = false ∧
    (run (isr_svc L) s).branch = some 0xFFFFFFFD ∧
    (run (isr_svc L) s).regs .r8 = s.mem.load32 sp ∧
    (run (isr_svc L) s).regs .r9 = s.mem.load32 (sp + 4) ∧
    (run (isr_svc L) s).regs .r10 = s.mem.load32 (sp + 8) ∧
    (run (isr_svc L) s).regs .r11 = s.mem.load32 (sp + 12) ∧
    (run (isr_svc L) s).regs .r4 = s.mem.load32 ((sp + 16) % WORD) ∧
    (run (isr_svc L) s).regs .r5 = s.mem.load32 ((sp + 16) % WORD + 4) ∧
    (run (isr_svc L) s).regs .r6 = s.mem.load32 ((sp + 16) % WORD + 8) ∧
    (run (isr_svc L) s).regs .r7 = s.mem.load32 ((sp + 16) % WORD + 12) := by
  rw [isr_svc_closed L s a sp ha hsp]
  exact ⟨rfl, rfl, rfl, rfl, rfl, rfl, rfl, rfl, rfl, rfl, rfl, rfl, rfl⟩

/-! ## `osport_init_stack`: returned pointer and hardware-saved half -/

/-- C1: for a region `[p, p + n)` of the address space whose size `n` is an
`OSPORT_UINT_T` value of at least 64 (the frame size), `osport_init_stack`
returns exactly `p + n - 64`: the frame lies inside the region and ends at its
top; for `n = 64 + 16` the returned pointer is `p + 16`. -/
theorem osport_init_stack_returns_top_minus_frame (debug : Bool) (m : Mem) (p n E R : Nat)
    (hsize : 64 ≤ n) (hn : n < OSPORT_UINT_T_RANGE) (hregion : p + n ≤ WORD) :
    (osport_init_stack debug m p n E R).1 = p + n - 64 ∧
      sizeof_stack_frame_t = 64 ∧
      p ≤ (osport_init_stack debug m p n E R).1 ∧
      (osport_init_stack debug m p n E R).1 + sizeof_stack_frame_t = p + n ∧
      (n = 64 + 16 → (osport_init_stack debug m p n E R).1 = p + 16) := by
  rw [osport_init_stack_fst, sizeof_stack_frame_t_eq]
  simp only [WORD, OSPORT_UINT_T_RANGE] at *
  refine ⟨?_, trivial, ?_, ?_, fun h => ?_⟩ <;> omega

/-- Witness for C1: a region of `64 + 16` bytes at `0x20000000`. -/
theorem osport_init_stack_returns_top_minus_frame_witness :
    64 ≤ 80 ∧ 80 < OSPORT_UINT_T_RANGE ∧ 0x20000000 + 80 ≤ WORD ∧
      (osport_init_stack true memAA 0x20000000 80 0x08000101 0x08000201).1 = 0x20000010 :=
  ⟨by decide, by decide, by decide,
    (osport_init_stack_returns_top_minus_frame true memAA 0x20000000 80 0x08000101 0x08000201
      (by decide) (by decide) (by decide)).2.2.2.2 rfl⟩

/-- C2: for every region and size, every 32-bit entry address `E` and
return-handler address `R` and every previous memory, after
`osport_init_stack` the word at `f + 56` (pc) is `E`, the word at `f + 52` (lr)
is `R` and the word at `f + 60` (psr) is `0x01000000`, whose only set bit is
bit 24; `f` is the returned frame address. -/
theorem osport_init_stack_sets_pc_lr_psr (debug : Bool) (m : Mem) (p n E R : Nat)
    (hE : E < WORD) (hR : R < WORD) :
    (osport_init_stack debug m p n E R).2.load32 ((osport_init_stack debug m p n E R).1 + 56) = E ∧
    (osport_init_stack debug m p n E R).2.load32 ((osport_init_stack debug m p n E R).1 + 52) = R ∧
    (osport_init_stack debug m p n E R).2.load32 ((osport_init_stack debug m p n E R).1 + 60)
      = 0x01000000 ∧
    (∀ i, Nat.testBit ((osport_init_stack debug m p n E R).2.load32
        ((osport_init_stack debug m p n E R).1 + 60)) i = true ↔ i = 24) := by
  have hpc : ∀ mm q, mm.load32 (q + 56) = getField mm q .pc := fun _ _ => rfl
  have hlr : ∀ mm q, mm.load32 (q + 52) = getField mm q .lr := fun _ _ => rfl
  have hpsr : ∀ mm q, mm.load32 (q + 60) = getField mm q .psr := fun _ _ => rfl
  rw [hpc, hlr, hpsr, osport_init_stack_snd]
  simp only [getField_setField_same, getField_setField_of_ne, ne_eq, reduceCtorEq,
    not_false_eq_true, Nat.mod_eq_of_lt hE, Nat.mod_eq_of_lt hR]
  refine ⟨trivial, trivial, by decide, ?_⟩
  intro i
  have : INITIAL_PSR % WORD = 2 ^ 24 := by decide
  rw [this, Nat.testBit_two_pow]
  simp [eq_comm]

/-- Witness for C2: entry `0x08000101`, return handler `0x08000201`, a region
of 80 bytes of `0xAA` at `0x20000000`. -/
theorem osport_init_stack_sets_pc_lr_psr_witness :
    0x08000101 < WORD ∧ 0x08000201 < WORD ∧
      (osport_init_stack true memAA 0x20000000 80 0x08000101 0x08000201).2.load32
        ((osport_init_stack true memAA 0x20000000 80 0x08000101 0x08000201).1 + 56)
        = 0x08000101 :=
  ⟨by decide, by decide,
    (osport_init_stack_sets_pc_lr_psr true memAA 0x20000000 80 0x08000101 0x08000201
      (by decide) (by decide)).1⟩

/-! ## `osport_init_stack`: debug fill, frame effect, undersized regions, determinism -/

/-- C7: with the debug fill enabled, for every region and size, after
`osport_init_stack` the frame slot of register `rN` holds `0x00001000 + N` for
every `N` in `0..12`; the slots lie at offsets r0..r3 -> 32..44, r4..r7 ->
16..28, r8..r11 -> 0..12, r12 -> 48; the thirteen stored sentinels are pairwise
distinct; and all 16 words of the frame have a value fixed by the arguments. -/
theorem osport_init_stack_debug_fill (m : Mem) (p n E R : Nat) :
    (∀ N, N < 13 →
      getField (osport_init_stack OSPORT_ENABLE_DEBUG m p n E R).2
        (osport_init_stack OSPORT_ENABLE_DEBUG m p n E R).1 (gpr N) = 0x00001000 + N) ∧
    (List.range 13).map (fun N => offsetof (gpr N))
      = [32, 36, 40, 44, 16, 20, 24, 28, 0, 4, 8, 12, 48] ∧
    ((List.range 13).map fun N =>
      (osport_init_stack OSPORT_ENABLE_DEBUG m p n E R).2.load32
        ((osport_init_stack OSPORT_ENABLE_DEBUG m p n E R).1 + offsetof (gpr N))).Nodup ∧
    stack_frame_s.map (getField (osport_init_stack OSPORT_ENABLE_DEBUG m p n E R).2
        (osport_init_stack OSPORT_ENABLE_DEBUG m p n E R).1) =
      [0x1008, 0x1009, 0x100A, 0x100B, 0x1004, 0x1005, 0x1006, 0x1007,
       0x1000, 0x1001, 0x1002, 0x1003, 0x100C, R % WORD, E % WORD, 0x01000000] := by
  have img := getField_init_debug m p n E R
  simp only [stack_frame_s, List.map, List.cons.injEq, and_true] at img
  obtain ⟨h8, h9, h10, h11, h4, h5, h6, h7, h0, h1, h2, h3, h12, -, -, -⟩ := img
  have hall : ∀ N, N < 13 →
      getField (osport_init_stack true m p n E R).2
        (osport_init_stack true m p n E R).1 (gpr N) = 0x00001000 + N := by
    intro N hN
    interval_cases N
    · exact h0
    · exact h1
    · exact h2
    · exact h3
    · exact h4
    · exact h5
    · exact h6
    · exact h7
    · exact h8
    · exact h9
    · exact h10
    · exact h11
    · exact h12
  refine ⟨hall, by decide, ?_, getField_init_debug m p n E R⟩
  have e : ∀ N, (osport_init_stack OSPORT_ENABLE_DEBUG m p n E R).2.load32
        ((osport_init_stack OSPORT_ENABLE_DEBUG m p n E R).1 + offsetof (gpr N))
      = getField (osport_init_stack true m p n E R).2
        (osport_init_stack true m p n E R).1 (gpr N) := fun _ => rfl
  simp only [e]
  have : (List.range 13).map (fun N => getField (osport_init_stack true m p n E R).2
        (osport_init_stack true m p n E R).1 (gpr N))
      = (List.range 13).map (fun N => 0x00001000 + N) := by
    apply List.map_congr_left
    intro N hN
    exact hall N (List.mem_range.mp hN)
  rw [this]
  decide

/-- C8: `osport_init_stack` has no side effect outside the frame.  For a
region `[p, p + n)` of the address space with `64 <= n`, every byte at an
address outside `[p + n - 64, p + n)` keeps its value and is not stored to, in
particular the region bytes `[p, p + n - 64)` below the frame; every word that
lies outside the frame, such as a scheduler back-reference, keeps its value and
is not stored to; and the call loads nothing. -/
theorem osport_init_stack_frame_effect (debug : Bool) (m : Mem) (p n E R : Nat)
    (hsize : 64 ≤ n) (hn : n < OSPORT_UINT_T_RANGE) (hregion : p + n ≤ WORD) :
    (∀ x, ¬ (p + n - 64 ≤ x ∧ x < p + n) →
      (osport_init_stack debug m p n E R).2.bytes x = m.bytes x ∧
      x ∉ m.storesSince (osport_init_stack debug m p n E R).2) ∧
    (∀ x, p ≤ x → x < p + n - 64 →
      (osport_init_stack debug m p n E R).2.bytes x = m.bytes x) ∧
    (∀ w, w + 4 ≤ WORD → (w + 4 ≤ p + n - 64 ∨ p + n ≤ w) →
      (osport_init_stack debug m p n E R).2.load32 w = m.load32 w ∧
      ∀ i, i < 4 → w + i ∉ m.storesSince (osport_init_stack debug m p n E R).2) ∧
    (osport_init_stack debug m p n E R).2.loads = m.loads := by
  have hf : (osport_init_stack debug m p n E R).1 = p + n - 64 := by
    rw [osport_init_stack_fst]
    simp only [WORD, OSPORT_UINT_T_RANGE] at *
    omega
  have hout : ∀ x, ¬ (p + n - 64 ≤ x ∧ x < p + n) →
      ∀ k, k < 64 → x ≠ ((osport_init_stack debug m p n E R).1 + k) % WORD := by
    intro x hx k hk
    rw [hf]
    simp only [WORD] at *
    omega
  have hmain : ∀ x, ¬ (p + n - 64 ≤ x ∧ x < p + n) →
      (osport_init_stack debug m p n E R).2.bytes x = m.bytes x ∧
      x ∉ m.storesSince (osport_init_stack debug m p n E R).2 := by
    intro x hx
    refine ⟨bytes_init_of_outside debug m p n E R x (hout x hx), fun hmem => ?_⟩
    obtain ⟨k, hk, hxk⟩ := mem_storesSince_init debug m p n E R x hmem
    exact hout x hx k hk hxk
  refine ⟨hmain, fun x h1 h2 => (hmain x (by omega)).1, ?_, ?_⟩
  · intro w hw hsep
    have hb : ∀ i, i < 4 →
        (osport_init_stack debug m p n E R).2.bytes ((w + i) % WORD) = m.bytes ((w + i) % WORD) := by
      intro i hi
      refine (hmain _ ?_).1
      simp only [WORD] at *
      omega
    refine ⟨?_, fun i hi => (hmain _ (by omega)).2⟩
    have h0 := hb 0 (by omega)
    simp only [Mem.load32, Mem.load8, hb 1 (by omega), hb 2 (by omega), hb 3 (by omega)]
    rw [Nat.add_zero] at h0
    rw [h0]
  · rw [osport_init_stack_snd]
    cases debug <;> rfl

/-- Witness for C8: a region of 80 bytes of `0xAA` at `0x20000000`; the byte at
the region base keeps its value. -/
theorem osport_init_stack_frame_effect_witness :
    64 ≤ 80 ∧ 80 < OSPORT_UINT_T_RANGE ∧ 0x20000000 + 80 ≤ WORD ∧
      (osport_init_stack true memAA 0x20000000 80 0x08000101 0x08000201).2.bytes 0x20000000
        = memAA.bytes 0x20000000 :=
  ⟨by decide, by decide, by decide,
    (osport_init_stack_frame_effect true memAA 0x20000000 80 0x08000101 0x08000201
      (by decide) (by decide) (by decide)).2.1 0x20000000 (by decide) (by decide)⟩

/-- C9: undersized region.  For every size `n < 64` (region `[p, p + n)` in the
address space, `p + n - 64` not below address 0) the configured
`osport_init_stack` checks nothing and still returns a pointer, `p + n - 64`,
which is below the region base `p`; it stores to all 64 bytes
`[p + n - 64, p + n)`, so every byte in `[p + n - 64, p)` is stored to although
it lies outside the region, and the word at the returned address holds the
sentinel of `r8`. -/
theorem osport_init_stack_undersized_region (m : Mem) (p n E R : Nat)
    (hsmall : n < 64) (hlow : 64 ≤ p + n) (hregion : p + n ≤ WORD) :
    (osport_init_stack OSPORT_ENABLE_DEBUG m p n E R).1 = p + n - 64 ∧
    (osport_init_stack OSPORT_ENABLE_DEBUG m p n E R).1 < p ∧
    (∀ x, p + n - 64 ≤ x → x < p + n →
      x ∈ m.storesSince (osport_init_stack OSPORT_ENABLE_DEBUG m p n E R).2) ∧
    (∀ x, p + n - 64 ≤ x → x < p →
      x ∈ m.storesSince (osport_init_stack OSPORT_ENABLE_DEBUG m p n E R).2 ∧
      ¬ (p ≤ x ∧ x < p + n)) ∧
    (osport_init_stack OSPORT_ENABLE_DEBUG m p n E R).2.load32 (p + n - 64) = 0x00001008 := by
  have hf : (osport_init_stack OSPORT_ENABLE_DEBUG m p n E R).1 = p + n - 64 := by
    rw [osport_init_stack_fst]
    simp only [WORD] at *
    omega
  have hcov : ∀ x, p + n - 64 ≤ x → x < p + n →
      x ∈ m.storesSince (osport_init_stack OSPORT_ENABLE_DEBUG m p n E R).2 := by
    intro x h1 h2
    have := storesSince_init_debug_covers m p n E R (x - (p + n - 64)) (by omega)
    have hx : ((osport_init_stack true m p n E R).1 + (x - (p + n - 64))) % WORD = x := by
      have hf2 : (osport_init_stack true m p n E R).1 = p + n - 64 := hf
      rw [hf2]
      simp only [WORD] at *
      omega
    rw [hx] at this
    exact this
  refine ⟨hf, by rw [hf]; omega, hcov, fun x h1 h2 => ⟨hcov x h1 (by omega), by omega⟩, ?_⟩
  have img := getField_init_debug m p n E R
  simp only [stack_frame_s, List.map, List.cons.injEq, and_true] at img
  have h8 := img.1
  have hoff : offsetof .r8 = 0 := by decide
  have hf2 : (osport_init_stack true m p n E R).1 = p + n - 64 := hf
  rw [getField, hoff, Nat.add_zero, hf2] at h8
  exact h8

/-- Witness for C9: a region of 56 bytes at `0x20000040`. -/
theorem osport_init_stack_undersized_region_witness :
    56 < 64 ∧ 64 ≤ 0x20000040 + 56 ∧ 0x20000040 + 56 ≤ WORD ∧
      (osport_init_stack OSPORT_ENABLE_DEBUG memAA 0x20000040 56 0x08000101 0x08000201).1
        < 0x20000040 :=
  ⟨by decide, by decide, by decide,
    (osport_init_stack_undersized_region memAA 0x20000040 56 0x08000101 0x08000201
      (by decide) (by decide) (by decide)).2.1⟩

/-- C10: initialisation determinism.  For any two initial memories and
identical arguments the two runs of `osport_init_stack` return the same stack
pointer and leave the same pc word (at `f + 56`) and lr word (at `f + 52`);
with the debug fill on, all 16 members of the frame are identical. -/
theorem osport_init_stack_deterministic (debug : Bool) (m1 m2 : Mem) (p n E R : Nat) :
    (osport_init_stack debug m1 p n E R).1 = (osport_init_stack debug m2 p n E R).1 ∧
    (osport_init_stack debug m1 p n E R).2.load32 ((osport_init_stack debug m1 p n E R).1 + 56)
      = (osport_init_stack debug m2 p n E R).2.load32
          ((osport_init_stack debug m2 p n E R).1 + 56) ∧
    (osport_init_stack debug m1 p n E R).2.load32 ((osport_init_stack debug m1 p n E R).1 + 52)
      = (osport_init_stack debug m2 p n E R).2.load32
          ((osport_init_stack debug m2 p n E R).1 + 52) ∧
    (∀ f,
      getField (osport_init_stack true m1 p n E R).2 (osport_init_stack true m1 p n E R).1 f
        = getField (osport_init_stack true m2 p n E R).2
            (osport_init_stack true m2 p n E R).1 f) := by
  have hpc : ∀ mm q, mm.load32 (q + 56) = getField mm q .pc := fun _ _ => rfl
  have hlr : ∀ mm q, mm.load32 (q + 52) = getField mm q .lr := fun _ _ => rfl
  refine ⟨rfl, ?_, ?_, ?_⟩
  · rw [hpc, hpc, osport_init_stack_snd, osport_init_stack_snd]
    simp only [getField_setField_same, getField_setField_of_ne, ne_eq, reduceCtorEq,
      not_false_eq_true]
  · rw [hlr, hlr, osport_init_stack_snd, osport_init_stack_snd]
    simp only [getField_setField_same, getField_setField_of_ne, ne_eq, reduceCtorEq,
      not_false_eq_true]
  · intro f
    have i1 := getField_init_debug m1 p n E R
    have i2 := getField_init_debug m2 p n E R
    rw [← i2] at i1
    have hmem : f ∈ stack_frame_s := by cases f <;> decide
    exact List.map_inj_left.mp i1 f hmem

/-! ## `isr_pendsv`: linkage ownership, scenario B, round trip -/

/-- C5: scheduler-linkage ownership in `isr_pendsv`.  For every pre-state
with the entry layout (save area, outgoing handle word and the two
back-references pairwise disjoint), after the handler `g_sch.p_current` holds
the pre-state value of `g_sch.p_next`; `g_sch.p_next` is unchanged; the bytes
stored to are exactly the save area, the saved-stack-pointer word of the thread
that was current on entry and `g_sch.p_current`, so no other thread-handle word
is written; the saved-stack-pointer word of the incoming thread is loaded, and
when it is disjoint from those three it is neither stored to nor changed. -/
theorem isr_pendsv_linkage_ownership (L : LinkSyms) (s : Cpu) (h : PendsvLayout L s) :
    (run (isr_pendsv L) s).mem.load32 L.pp_current = s.mem.load32 L.pp_next ∧
    (run (isr_pendsv L) s).mem.load32 L.pp_next = s.mem.load32 L.pp_next ∧
    (∀ x, x ∈ s.mem.storesSince (run (isr_pendsv L) s).mem ↔
      (s.psp - 32 ≤ x ∧ x < s.psp) ∨
      (s.mem.load32 L.pp_current ≤ x ∧ x < s.mem.load32 L.pp_current + 4) ∨
      (L.pp_current ≤ x ∧ x < L.pp_current + 4)) ∧
    (∀ i, i < 4 →
      (s.mem.load32 L.pp_next + i) % WORD ∈ s.mem.loadsSince (run (isr_pendsv L) s).mem) ∧
    (WordAvoids (s.mem.load32 L.pp_next) (s.psp - 32) s.psp →
      WordsDisjoint (s.mem.load32 L.pp_current) (s.mem.load32 L.pp_next) →
      WordsDisjoint L.pp_current (s.mem.load32 L.pp_next) →
      (run (isr_pendsv L) s).mem.load32 (s.mem.load32 L.pp_next)
          = s.mem.load32 (s.mem.load32 L.pp_next) ∧
        ∀ i, i < 4 →
          s.mem.load32 L.pp_next + i ∉ s.mem.storesSince (run (isr_pendsv L) s).mem) := by
  obtain ⟨hlo, hhi, hc, hn, hcn, ha, hac, han⟩ := id h
  have hr := (isr_pendsv_run L s hlo hhi _ _ rfl rfl).1
  have hb := pendsvSaved_load_next L s h
  refine ⟨?_, ?_, mem_storesSince_isr_pendsv L s h, ?_, ?_⟩
  · rw [hr, load32_store32_same, hb]
    exact Nat.mod_eq_of_lt (load32_lt _ _)
  · exact load32_isr_pendsv_of_avoid L s h L.pp_next hn han hcn
  · intro i hi
    have e0 : (pendsvSaved L s).loads =
        [(L.pp_current + 3) % WORD, (L.pp_current + 2) % WORD, (L.pp_current + 1) % WORD,
          L.pp_current % WORD] ++ s.mem.loads := rfl
    have e1 := loads_logLoad32_ext s.mem _ L.pp_next _ e0
    have e2 := loads_logLoad32_ext s.mem _ ((pendsvSaved L s).load32 L.pp_next) _ e1
    obtain ⟨l3, e3, k3⟩ := loads_logLoad32x4_ext s.mem _
      ((pendsvSaved L s).load32 ((pendsvSaved L s).load32 L.pp_next)) _ e2
    obtain ⟨l4, e4, k4⟩ := loads_logLoad32x4_ext s.mem _
      (((pendsvSaved L s).load32 ((pendsvSaved L s).load32 L.pp_next) + 16) % WORD) _ e3
    rw [hr, loadsSince_of_append s.mem _ l4 ((loads_store32 _ _ _).trans e4)]
    apply k4
    apply k3
    rw [hb]
    interval_cases i <;> simp
  · intro h1 h2 h3
    refine ⟨load32_isr_pendsv_of_avoid L s h _ h1 h2 h3, fun i hi hmem => ?_⟩
    rw [mem_storesSince_isr_pendsv L s h] at hmem
    simp only [WordAvoids, WordsDisjoint, WORD] at *
    omega


/-- Witness for C5: thread A (handle `0x20000200`) runs on a stack with
`psp = 0x20001000`, thread B (handle `0x20000210`) is next. -/
theorem isr_pendsv_linkage_ownership_witness :
    PendsvLayout demoLink demoCpu ∧
      (run (isr_pendsv demoLink) demoCpu).mem.load32 demoLink.pp_current
        = demoCpu.mem.load32 demoLink.pp_next :=
  ⟨by decide, (isr_pendsv_linkage_ownership demoLink demoCpu (by decide)).1⟩

/-- C4: scenario B.  Thread A is current with process stack pointer `P`,
thread B is next, the entry layout holds, the registers hold 32-bit values and
B's saved 64-byte frame is disjoint from A's save area `[P - 32, P)`, from A's
handle word and from `g_sch.p_current`.  One run of `isr_pendsv` leaves every
byte of B's frame unchanged and unstored, leaves at `[P - 32, P)` the values
`r8, r9, r10, r11, r4, r5, r6, r7` had on entry, at offsets 0, 4, .., 28, and
sets A's saved stack pointer to `P - 32`. -/
theorem isr_pendsv_scenario_b (L : LinkSyms) (s : Cpu) (h : PendsvLayout L s)
    (hregs : ∀ r, s.regs r < WORD)
    (hstack : s.mem.load32 (s.mem.load32 L.pp_next) + 64 ≤ s.psp - 32 ∨
      s.psp ≤ s.mem.load32 (s.mem.load32 L.pp_next))
    (hhandle : s.mem.load32 (s.mem.load32 L.pp_next) + 64 ≤ s.mem.load32 L.pp_current ∨
      s.mem.load32 L.pp_current + 4 ≤ s.mem.load32 (s.mem.load32 L.pp_next))
    (hlink : s.mem.load32 (s.mem.load32 L.pp_next) + 64 ≤ L.pp_current ∨
      L.pp_current + 4 ≤ s.mem.load32 (s.mem.load32 L.pp_next)) :
    (∀ x, s.mem.load32 (s.mem.load32 L.pp_next) ≤ x →
      x < s.mem.load32 (s.mem.load32 L.pp_next) + 64 →
      (run (isr_pendsv L) s).mem.bytes x = s.mem.bytes x ∧
      x ∉ s.mem.storesSince (run (isr_pendsv L) s).mem) ∧
    (run (isr_pendsv L) s).mem.load32 (s.psp - 32) = s.regs .r8 ∧
    (run (isr_pendsv L) s).mem.load32 (s.psp - 32 + 4) = s.regs .r9 ∧
    (run (isr_pendsv L) s).mem.load32 (s.psp - 32 + 8) = s.regs .r10 ∧
    (run (isr_pendsv L) s).mem.load32 (s.psp - 32 + 12) = s.regs .r11 ∧
    (run (isr_pendsv L) s).mem.load32 (s.psp - 32 + 16) = s.regs .r4 ∧
    (run (isr_pendsv L) s).mem.load32 (s.psp - 32 + 20) = s.regs .r5 ∧
    (run (isr_pendsv L) s).mem.load32 (s.psp - 32 + 24) = s.regs .r6 ∧
    (run (isr_pendsv L) s).mem.load32 (s.psp - 32 + 28) = s.regs .r7 ∧
    (run (isr_pendsv L) s).mem.load32 (s.mem.load32 L.pp_current) = s.psp - 32 := by
  have ar := load32_isr_pendsv_area L s h
  simp only [Nat.mod_eq_of_lt (hregs _)] at ar
  refine ⟨fun x h1 h2 => ⟨?_, fun hmem => ?_⟩, ar⟩
  · exact bytes_isr_pendsv_of_outside L s h x (by omega) (by omega) (by omega)
  · rw [mem_storesSince_isr_pendsv L s h] at hmem
    omega


/-- Witness for C4: thread A at `psp = 0x20001000` is switched out for thread B,
whose frame was built by `osport_init_stack` at `0x200020C0`. -/
theorem isr_pendsv_scenario_b_witness :
    PendsvLayout demoLink demoCpu ∧ (∀ r, demoCpu.regs r < WORD) ∧
      (run (isr_pendsv demoLink) demoCpu).mem.load32 (demoCpu.psp - 32) = demoCpu.regs .r8 ∧
      (run (isr_pendsv demoLink) demoCpu).mem.load32 (demoCpu.mem.load32 demoLink.pp_current)
        = demoCpu.psp - 32 :=
  ⟨by decide, fun r => by cases r <;> decide,
    (isr_pendsv_scenario_b demoLink demoCpu (by decide) (fun r => by cases r <;> decide)
      (by decide) (by decide) (by decide)).2.1,
    (isr_pendsv_scenario_b demoLink demoCpu (by decide) (fun r => by cases r <;> decide)
      (by decide) (by decide) (by decide)).2.2.2.2.2.2.2.2.2⟩

/-- Counterexample to C3: a self-switch at the second entry.  Thread B is
switched to itself (`demoSelfCpu`), runs on with `r4 = 0x99` and is selected
again (`demoSelfCpu2`); memory at the second entry is exactly what the first
run left, so nothing was written in between.  The second run, entered with B
current as well as next, saves `0x99` over the save area before it reloads it:
`r4` is `0x99` on exit, not the `0x44` of the first entry. -/
theorem isr_pendsv_round_trip_counterexample :
    PendsvLayout demoLink demoSelfCpu ∧ (∀ r, demoSelfCpu.regs r < WORD) ∧
      PendsvLayout demoLink demoSelfCpu2 ∧
      demoSelfCpu2.mem.load32 demoLink.pp_next = demoSelfCpu.mem.load32 demoLink.pp_current ∧
      demoSelfCpu2.mem = (run (isr_pendsv demoLink) demoSelfCpu).mem ∧
      demoSelfCpu.regs .r4 = 0x44 ∧
      (run (isr_pendsv demoLink) demoSelfCpu2).regs .r4 = 0x99 ∧
      ¬ (run (isr_pendsv demoLink) demoSelfCpu2).regs .r4 = demoSelfCpu.regs .r4 :=
  ⟨by decide, fun r => by cases r <;> decide, by decide, by decide, rfl, by decide, by decide,
    by decide⟩

/-- C3, amended: round trip of the context-switch trap.  `s1` is the state in
which `isr_pendsv` is entered with thread A current, registers `r4..r11 = v`
and process stack pointer `P`; `s2` is a later state in which it is entered
with `g_sch.p_next` pointing at A.  Both states have the entry layout and the
registers of `s1` are 32-bit values.  Every byte of `[P - 32, P)` and of A's
saved-stack-pointer word has in `s2` the value the first run left, and the
thread that is current in `s2` is not A: its save area and its
saved-stack-pointer word are disjoint from A's save area and A's
saved-stack-pointer word.  Then the second run exits with `r4..r11 = v` and
process stack pointer `P`. -/
theorem isr_pendsv_round_trip (L : LinkSyms) (s1 s2 : Cpu)
    (h1 : PendsvLayout L s1) (hregs : ∀ r, s1.regs r < WORD)
    (h2 : PendsvLayout L s2)
    (hnext : s2.mem.load32 L.pp_next = s1.mem.load32 L.pp_current)
    (harea : ∀ k, k < 32 →
      s2.mem.bytes (s1.psp - 32 + k) = (run (isr_pendsv L) s1).mem.bytes (s1.psp - 32 + k))
    (hhandle : ∀ k, k < 4 →
      s2.mem.bytes (s1.mem.load32 L.pp_current + k)
        = (run (isr_pendsv L) s1).mem.bytes (s1.mem.load32 L.pp_current + k))
    (hstack : s2.psp ≤ s1.psp - 32 ∨ s1.psp ≤ s2.psp - 32)
    (hout : WordAvoids (s1.mem.load32 L.pp_current) (s2.psp - 32) s2.psp)
    (hother : WordsDisjoint (s2.mem.load32 L.pp_current) (s1.mem.load32 L.pp_current))
    (hotherArea : WordAvoids (s2.mem.load32 L.pp_current) (s1.psp - 32) s1.psp) :
    (run (isr_pendsv L) s2).regs .r4 = s1.regs .r4 ∧
    (run (isr_pendsv L) s2).regs .r5 = s1.regs .r5 ∧
    (run (isr_pendsv L) s2).regs .r6 = s1.regs .r6 ∧
    (run (isr_pendsv L) s2).regs .r7 = s1.regs .r7 ∧
    (run (isr_pendsv L) s2).regs .r8 = s1.regs .r8 ∧
    (run (isr_pendsv L) s2).regs .r9 = s1.regs .r9 ∧
    (run (isr_pendsv L) s2).regs .r10 = s1.regs .r10 ∧
    (run (isr_pendsv L) s2).regs .r11 = s1.regs .r11 ∧
    (run (isr_pendsv L) s2).psp = s1.psp := by
  have ar := load32_isr_pendsv_area L s1 h1
  simp only [Nat.mod_eq_of_lt (hregs _)] at ar
  obtain ⟨a8, a9, a10, a11, a4, a5, a6, a7, asp⟩ := ar
  obtain ⟨hlo, hhi, -, -, -, ha, -, -⟩ := id h1
  obtain ⟨hlo2, hhi2, -⟩ := id h2
  have hkept : ∀ x, (s1.psp - 32 ≤ x ∧ x < s1.psp) ∨
        (s1.mem.load32 L.pp_current ≤ x ∧ x < s1.mem.load32 L.pp_current + 4) →
      s2.mem.bytes x = (run (isr_pendsv L) s1).mem.bytes x := by
    rintro x (hx | hx)
    · have := harea (x - (s1.psp - 32)) (by omega)
      rwa [Nat.add_sub_cancel' hx.1] at this
    · have := hhandle (x - s1.mem.load32 L.pp_current) (by omega)
      rwa [Nat.add_sub_cancel' hx.1] at this
  have key : ∀ q, q + 4 ≤ WORD →
      (∀ x, q ≤ x → x < q + 4 → (s1.psp - 32 ≤ x ∧ x < s1.psp) ∨
        (s1.mem.load32 L.pp_current ≤ x ∧ x < s1.mem.load32 L.pp_current + 4)) →
      (pendsvSaved L s2).load32 q = (run (isr_pendsv L) s1).mem.load32 q := by
    intro q hq hin
    have i0 := hin q (by omega) (by omega)
    have i3 := hin (q + 3) (by omega) (by omega)
    have k1 : WordAvoids q (s2.psp - 32) s2.psp := by
      simp only [WordAvoids, WordsDisjoint, WORD] at *
      omega
    have k2 : WordsDisjoint (s2.mem.load32 L.pp_current) q := by
      simp only [WordAvoids, WordsDisjoint, WORD] at *
      omega
    rw [load32_pendsvSaved_of_avoid L s2 h2 q k1 k2]
    exact load32_congr_bytes _ _ q hq fun x hx1 hx2 => hkept x (hin x hx1 hx2)
  have inArea : ∀ k, k + 4 ≤ 32 → s1.psp - 32 + k + 4 ≤ WORD ∧
      ∀ x, s1.psp - 32 + k ≤ x → x < s1.psp - 32 + k + 4 → (s1.psp - 32 ≤ x ∧ x < s1.psp) ∨
        (s1.mem.load32 L.pp_current ≤ x ∧ x < s1.mem.load32 L.pp_current + 4) := by
    intro k hk
    refine ⟨by simp only [WORD] at *; omega, fun x hx1 hx2 => Or.inl (by omega)⟩
  have kk : ∀ k, k + 4 ≤ 32 → (pendsvSaved L s2).load32 (s1.psp - 32 + k)
      = (run (isr_pendsv L) s1).mem.load32 (s1.psp - 32 + k) :=
    fun k hk => key _ (inArea k hk).1 (inArea k hk).2
  have hb : s1.mem.load32 L.pp_current = (pendsvSaved L s2).load32 L.pp_next := by
    rw [pendsvSaved_load_next L s2 h2, hnext]
  have hsp : s1.psp - 32 = (pendsvSaved L s2).load32 (s1.mem.load32 L.pp_current) := by
    rw [key _ ha.1 (fun x hx1 hx2 => Or.inr ⟨hx1, hx2⟩), asp]
  have hr := isr_pendsv_run L s2 hlo2 hhi2 _ _ hb hsp
  obtain ⟨-, hpsp, -, -, -, r8, r9, r10, r11, r4, r5, r6, r7, -⟩ := hr
  have e16 : (s1.psp - 32 + 16) % WORD = s1.psp - 32 + 16 :=
    Nat.mod_eq_of_lt (by simp only [WORD] at *; omega)
  have e32 : (s1.psp - 32 + 16 + 16) % WORD = s1.psp :=  by simp only [WORD] at *; omega
  have k0 := kk 0 (by omega)
  rw [Nat.add_zero] at k0
  have t20 : s1.psp - 32 + 16 + 4 = s1.psp - 32 + 20 := by omega
  have t24 : s1.psp - 32 + 16 + 8 = s1.psp - 32 + 24 := by omega
  have t28 : s1.psp - 32 + 16 + 12 = s1.psp - 32 + 28 := by omega
  rw [e16] at r4 r5 r6 r7 hpsp
  rw [t20] at r5
  rw [t24] at r6
  rw [t28] at r7
  rw [e32] at hpsp
  refine ⟨?_, ?_, ?_, ?_, ?_, ?_, ?_, ?_, hpsp⟩
  · rw [r4, kk 16 (by omega), a4]
  · rw [r5, kk 20 (by omega), a5]
  · rw [r6, kk 24 (by omega), a6]
  · rw [r7, kk 28 (by omega), a7]
  · rw [r8, k0, a8]
  · rw [r9, kk 4 (by omega), a9]
  · rw [r10, kk 8 (by omega), a10]
  · rw [r11, kk 12 (by omega), a11]


/-- Witness for C3: thread A is switched out for B (`demoCpu`), then B is
switched out for A (`demoCpu2`); A gets back its registers and stack pointer. -/
theorem isr_pendsv_round_trip_witness :
    PendsvLayout demoLink demoCpu ∧ PendsvLayout demoLink demoCpu2 ∧
      demoCpu2.mem.load32 demoLink.pp_next = demoCpu.mem.load32 demoLink.pp_current ∧
      (demoCpu2.psp ≤ demoCpu.psp - 32 ∨ demoCpu.psp ≤ demoCpu2.psp - 32) ∧
      WordsDisjoint (demoCpu2.mem.load32 demoLink.pp_current)
        (demoCpu.mem.load32 demoLink.pp_current) ∧
      (run (isr_pendsv demoLink) demoCpu2).regs .r4 = demoCpu.regs .r4 ∧
      (run (isr_pendsv demoLink) demoCpu2).psp = demoCpu.psp :=
  ⟨by decide, by decide, by decide, by decide, by decide,
    (isr_pendsv_round_trip demoLink demoCpu demoCpu2 (by decide)
      (fun r => by cases r <;> decide) (by decide) (by decide) (by decide) (by decide)
      (by decide) (by decide) (by decide) (by decide)).1,
    (isr_pendsv_round_trip demoLink demoCpu demoCpu2 (by decide)
      (fun r => by cases r <;> decide) (by decide) (by decide) (by decide) (by decide)
      (by decide) (by decide) (by decide) (by decide)).2.2.2.2.2.2.2.2⟩

/-! ## `isr_svc`: bootstrap postcondition -/

/-- C6: bootstrap postcondition.  For every pre-state in which
`g_sch.p_current` points at a thread whose saved stack pointer is `sp` (a frame
inside the address space), after `isr_svc` the main stack pointer is the
address `&_l_main_stack_bottom`, `r8..r11` are the words at `sp + 0 .. sp + 12`,
`r4..r7` the words at `sp + 16 .. sp + 28`, the process stack pointer is
`sp + 32`, the handler has branched to `0xFFFFFFFD`, interrupts are unmasked,
nothing has been stored, and memory, including both back-references, is
unchanged. -/
theorem isr_svc_bootstrap (L : LinkSyms) (s : Cpu) (sp : Nat)
    (hsp : s.mem.load32 (s.mem.load32 L.pp_current) = sp)
    (hframe : sp + 64 ≤ WORD) (hbottom : L.main_stack_bottom < WORD) :
    (run (isr_svc L) s).msp = L.main_stack_bottom ∧
    (run (isr_svc L) s).regs .r8 = s.mem.load32 sp ∧
    (run (isr_svc L) s).regs .r9 = s.mem.load32 (sp + 4) ∧
    (run (isr_svc L) s).regs .r10 = s.mem.load32 (sp + 8) ∧
    (run (isr_svc L) s).regs .r11 = s.mem.load32 (sp + 12) ∧
    (run (isr_svc L) s).regs .r4 = s.mem.load32 (sp + 16) ∧
    (run (isr_svc L) s).regs .r5 = s.mem.load32 (sp + 20) ∧
    (run (isr_svc L) s).regs .r6 = s.mem.load32 (sp + 24) ∧
    (run (isr_svc L) s).regs .r7 = s.mem.load32 (sp + 28) ∧
    (run (isr_svc L) s).psp = sp + 32 ∧
    (run (isr_svc L) s).branch = some 0xFFFFFFFD ∧
    (run (isr_svc L) s).primask = false ∧
    s.mem.storesSince (run (isr_svc L) s).mem = [] ∧
    (run (isr_svc L) s).mem.bytes = s.mem.bytes ∧
    (run (isr_svc L) s).mem.load32 L.pp_current = s.mem.load32 L.pp_current ∧
    (run (isr_svc L) s).mem.load32 L.pp_next = s.mem.load32 L.pp_next := by
  obtain ⟨hm, hpsp, hmsp, hmask, hbr, r8, r9, r10, r11, r4, r5, r6, r7⟩ :=
    isr_svc_run L s _ sp rfl hsp.symm
  have e16 : (sp + 16) % WORD = sp + 16 := Nat.mod_eq_of_lt (by simp only [WORD] at *; omega)
  have e32 : (sp + 16 + 16) % WORD = sp + 32 := by simp only [WORD] at *; omega
  rw [e16] at r4 r5 r6 r7 hpsp
  rw [e32] at hpsp
  rw [Nat.mod_eq_of_lt hbottom] at hmsp
  refine ⟨hmsp, r8, r9, r10, r11, r4, r5, r6, r7, hpsp, hbr, hmask, ?_, ?_, ?_, ?_⟩
  · rw [hm]
    exact storesSince_of_append _ _ [] rfl
  · rw [hm, bytes_logLoad32x4, bytes_logLoad32x4, bytes_logLoad32, bytes_logLoad32]
  · rw [hm, load32_logLoad32x4, load32_logLoad32x4, load32_logLoad32, load32_logLoad32]
  · rw [hm, load32_logLoad32x4, load32_logLoad32x4, load32_logLoad32, load32_logLoad32]

/-- Witness for C6: the first thread is B, whose frame was built by
`osport_init_stack` at `0x200020C0`. -/
theorem isr_svc_bootstrap_witness :
    demoBootCpu.mem.load32 (demoBootCpu.mem.load32 demoLink.pp_current) = 0x200020C0 ∧
      0x200020C0 + 64 ≤ WORD ∧ demoLink.main_stack_bottom < WORD ∧
      (run (isr_svc demoLink) demoBootCpu).psp = 0x200020C0 + 32 :=
  ⟨by decide, by decide, by decide,
    (isr_svc_bootstrap demoLink demoBootCpu 0x200020C0 (by decide) (by decide)
      (by decide)).2.2.2.2.2.2.2.2.2.1⟩

/-! ## Frame lemmas of the interpreter -/

theorem run_nil (s : Cpu) : run [] s = s := rfl

theorem run_cons (i : Instr) (is : List Instr) (s : Cpu) :
    run (i :: is) s = run is (exec i s) := rfl

theorem exec_regs_of_not_dest (i : Instr) (s : Cpu) (r : Reg) (h : r ∉ i.dest) :
    (exec i s).regs r = s.regs r := by
  cases i with
  | msr spec rn => cases spec <;> rfl
  | ldmia_r4_r7 rn =>
    simp only [Instr.dest, List.mem_cons, List.mem_singleton, List.mem_nil_iff, or_false,
      not_or] at h
    obtain ⟨h4, h5, h6, h7, hn⟩ := h
    simp only [exec, Cpu.set, h4, h5, h6, h7, hn, if_false]
  | dsb => rfl
  | isb => rfl
  | cpsid_i => rfl
  | cpsie_i => rfl
  | str rt rn => rfl
  | bx rm => rfl
  | ldr_lit rd c =>
    simp only [Instr.dest, List.mem_singleton] at h
    simp only [exec, Cpu.set, h, if_false]
  | mrs rd spec =>
    simp only [Instr.dest, List.mem_singleton] at h
    simp only [exec, Cpu.set, h, if_false]
  | ldr rt rn =>
    simp only [Instr.dest, List.mem_singleton] at h
    simp only [exec, Cpu.set, h, if_false]
  | stmia_r4_r7 rn =>
    simp only [Instr.dest, List.mem_singleton] at h
    simp only [exec, Cpu.set, h, if_false]
  | mov rd rm =>
    simp only [Instr.dest, List.mem_singleton] at h
    simp only [exec, Cpu.set, h, if_false]
  | sub_imm rdn imm =>
    simp only [Instr.dest, List.mem_singleton] at h
    simp only [exec, Cpu.set, h, if_false]

theorem run_regs_of_not_dest (prog : List Instr) (s : Cpu) (r : Reg)
    (h : ∀ i, i ∈ prog → r ∉ i.dest) : (run prog s).regs r = s.regs r := by
  induction prog generalizing s with
  | nil => rfl
  | cons i is ih =>
    rw [run_cons, ih (exec i s) (fun j hj => h j (List.mem_cons_of_mem _ hj)),
      exec_regs_of_not_dest i s r (h i (List.mem_cons_self _ _))]

theorem exec_msp (i : Instr) (s : Cpu) (h : ∀ rn, i ≠ .msr .msp rn) :
    (exec i s).msp = s.msp := by
  cases i with
  | msr spec rn =>
    cases spec
    · exact absurd rfl (h rn)
    · rfl
  | _ => rfl

theorem run_msp (prog : List Instr) (s : Cpu) (h : ∀ i, i ∈ prog → ∀ rn, i ≠ .msr .msp rn) :
    (run prog s).msp = s.msp := by
  induction prog generalizing s with
  | nil => rfl
  | cons i is ih =>
    rw [run_cons, ih (exec i s) (fun j hj => h j (List.mem_cons_of_mem _ hj)),
      exec_msp i s (h i (List.mem_cons_self _ _))]

theorem exec_control (i : Instr) (s : Cpu) : (exec i s).control = s.control := by
  cases i with
  | msr spec rn => cases spec <;> rfl
  | _ => rfl

theorem run_control (prog : List Instr) (s : Cpu) : (run prog s).control = s.control := by
  induction prog generalizing s with
  | nil => rfl
  | cons i is ih => rw [run_cons, ih (exec i s), exec_control]

theorem exec_primask (i : Instr) (s : Cpu) (h1 : i ≠ .cpsid_i) (h2 : i ≠ .cpsie_i) :
    (exec i s).primask = s.primask := by
  cases i with
  | msr spec rn => cases spec <;> rfl
  | cpsid_i => exact absurd rfl h1
  | cpsie_i => exact absurd rfl h2
  | _ => rfl

/-- The last instruction of `isr_pendsv` branches to the entry value of `lr`. -/
theorem isr_pendsv_branch (L : LinkSyms) (s : Cpu) :
    (run (isr_pendsv L) s).branch = some (s.regs .lr) := by
  have split : isr_pendsv L =
      [.dsb, .isb, .cpsid_i, .mrs .r2 .psp, .sub_imm .r2 16, .stmia_r4_r7 .r2,
         .mov .r7 .r11, .mov .r6 .r10, .mov .r5 .r9, .mov .r4 .r8, .sub_imm .r2 32,
         .stmia_r4_r7 .r2, .sub_imm .r2 16, .ldr_lit .r0 L.pp_current, .ldr .r1 .r0,
         .str .r2 .r1, .ldr_lit .r1 L.pp_next, .ldr .r1 .r1, .ldr .r2 .r1] ++
       [.ldmia_r4_r7 .r2, .mov .r11 .r7, .mov .r10 .r6, .mov .r9 .r5, .mov .r8 .r4,
         .ldmia_r4_r7 .r2, .msr .psp .r2, .str .r1 .r0, .cpsie_i, .bx .lr] := rfl
  rw [split, run_append, pendsv_restore]
  show some ((run _ s).regs .lr) = _
  rw [run_regs_of_not_dest]
  intro i hi
  simp only [List.mem_cons, List.mem_singleton, List.mem_nil_iff, or_false] at hi
  rcases hi with h | h | h | h | h | h | h | h | h | h | h | h | h | h | h | h | h | h | h <;>
    subst h <;> simp [Instr.dest]

/-! ## `isr_pendsv`: register footprint -/

/-- C19: register footprint of `isr_pendsv`.  For every pre-state the handler
leaves `r3`, `r12`, the link register and the main stack pointer unchanged, and
the value it finally branches to is that link register; every core register
other than `r0, r1, r2` and the reloaded `r4..r11` is unchanged; `r0, r1, r2`
are members of the hardware-saved half of the frame (offsets 32 and up). -/
theorem isr_pendsv_register_footprint (L : LinkSyms) (s : Cpu) :
    (run (isr_pendsv L) s).regs .r3 = s.regs .r3 ∧
    (run (isr_pendsv L) s).regs .r12 = s.regs .r12 ∧
    (run (isr_pendsv L) s).regs .lr = s.regs .lr ∧
    (run (isr_pendsv L) s).branch = some (s.regs .lr) ∧
    (run (isr_pendsv L) s).msp = s.msp ∧
    (∀ r, r ∉ [Reg.r0, .r1, .r2, .r4, .r5, .r6, .r7, .r8, .r9, .r10, .r11] →
      (run (isr_pendsv L) s).regs r = s.regs r) ∧
    32 ≤ offsetof .r0 ∧ 32 ≤ offsetof .r1 ∧ 32 ≤ offsetof .r2 := by
  have hdest : ∀ r, r ∉ [Reg.r0, .r1, .r2, .r4, .r5, .r6, .r7, .r8, .r9, .r10, .r11] →
      ∀ i, i ∈ isr_pendsv L → r ∉ i.dest := by
    intro r hr i hi
    simp only [isr_pendsv, List.mem_cons, List.mem_singleton, List.mem_nil_iff, or_false] at hi
    simp only [List.mem_cons, List.mem_singleton, List.mem_nil_iff, or_false, not_or] at hr
    obtain ⟨n0, n1, n2, n4, n5, n6, n7, n8, n9, n10, n11⟩ := hr
    rcases hi with h | h | h | h | h | h | h | h | h | h | h | h | h | h | h | h | h | h | h |
      h | h | h | h | h | h | h | h | h | h <;>
      subst h <;> simp [Instr.dest, n0, n1, n2, n4, n5, n6, n7, n8, n9, n10, n11]
  have hall : ∀ r, r ∉ [Reg.r0, .r1, .r2, .r4, .r5, .r6, .r7, .r8, .r9, .r10, .r11] →
      (run (isr_pendsv L) s).regs r = s.regs r :=
    fun r hr => run_regs_of_not_dest _ s r (hdest r hr)
  refine ⟨hall _ (by decide), hall _ (by decide), hall _ (by decide), isr_pendsv_branch L s,
    ?_, hall, by decide, by decide, by decide⟩
  apply run_msp
  intro i hi rn
  simp only [isr_pendsv, List.mem_cons, List.mem_singleton, List.mem_nil_iff, or_false] at hi
  rcases hi with h | h | h | h | h | h | h | h | h | h | h | h | h | h | h | h | h | h | h |
    h | h | h | h | h | h | h | h | h | h <;>
    subst h <;> simp

/-! ## Interrupt masking in the handlers -/

theorem trace_append (p q : List Instr) (s : Cpu) :
    trace (p ++ q) s = trace p s ++ trace q (run p s) := by
  induction p generalizing s with
  | nil => rfl
  | cons i is ih =>
    show (i, s) :: trace (is ++ q) (exec i s) = _
    rw [ih]
    rfl

theorem mem_trace_instr (prog : List Instr) (s : Cpu) (p : Instr × Cpu)
    (h : p ∈ trace prog s) : p.1 ∈ prog := by
  induction prog generalizing s with
  | nil => simp [trace] at h
  | cons i is ih =>
    simp only [trace, List.mem_cons] at h
    rcases h with h | h
    · subst h
      exact List.mem_cons_self _ _
    · exact List.mem_cons_of_mem _ (ih _ h)

theorem trace_primask_const (prog : List Instr) (s : Cpu)
    (hno : ∀ i, i ∈ prog → i ≠ .cpsid_i ∧ i ≠ .cpsie_i) (p : Instr × Cpu)
    (h : p ∈ trace prog s) : p.2.primask = s.primask := by
  induction prog generalizing s with
  | nil => simp [trace] at h
  | cons i is ih =>
    simp only [trace, List.mem_cons] at h
    rcases h with h | h
    · subst h
      rfl
    · have hi := hno i (List.mem_cons_self _ _)
      rw [ih _ (fun j hj => hno j (List.mem_cons_of_mem _ hj)) h, exec_primask i s hi.1 hi.2]

/-- In a listing of the shape `pre; CPSID I; body; CPSIE I; BX`, where `pre`
has no critical instruction and `body` does not touch PRIMASK, every critical
instruction executes with PRIMASK set. -/
theorem trace_masked (pre body : List Instr) (r : Reg) (s : Cpu)
    (hpre : ∀ i, i ∈ pre → i.isCritical = false)
    (hbody : ∀ i, i ∈ body → i ≠ .cpsid_i ∧ i ≠ .cpsie_i)
    (p : Instr × Cpu)
    (h : p ∈ trace (pre ++ (.cpsid_i :: (body ++ [.cpsie_i, .bx r]))) s)
    (hc : p.1.isCritical = true) : p.2.primask = true := by
  rw [trace_append] at h
  rcases List.mem_append.mp h with h | h
  · have := hpre _ (mem_trace_instr _ _ _ h)
    rw [this] at hc
    exact absurd hc (by decide)
  · simp only [trace, List.mem_cons] at h
    rcases h with h | h
    · subst h
      exact absurd hc (by simp [Instr.isCritical])
    · rw [trace_append] at h
      rcases List.mem_append.mp h with h | h
      · exact trace_primask_const body _ hbody p h
      · simp only [trace, List.mem_cons, List.mem_nil_iff, or_false] at h
        rcases h with h | h
        · subst h
          exact absurd hc (by simp [Instr.isCritical])
        · subst h
          exact absurd hc (by simp [Instr.isCritical])

/-- C12: mutual exclusion of the critical sections.  From every pre-state, in
`isr_pendsv` and in `isr_svc` every instruction that loads or stores memory or
reads or writes a stack pointer register (a store to a back-reference is such a
store) executes with PRIMASK set; each listing has exactly one `CPSID I` and one
`CPSIE I`, every such instruction lies strictly between them, and `CPSIE I` is
followed only by the `BX` of the exception return. -/
theorem handlers_critical_sections_masked (L : LinkSyms) (s : Cpu) :
    (∀ p, p ∈ trace (isr_pendsv L) s → p.1.isCritical = true → p.2.primask = true) ∧
    (∀ p, p ∈ trace (isr_svc L) s → p.1.isCritical = true → p.2.primask = true) ∧
    (isr_pendsv L).count .cpsid_i = 1 ∧ (isr_pendsv L).count .cpsie_i = 1 ∧
    (isr_svc L).count .cpsid_i = 1 ∧ (isr_svc L).count .cpsie_i = 1 ∧
    (∀ k i, (isr_pendsv L)[k]? = some i → i.isCritical = true →
      (isr_pendsv L).indexOf .cpsid_i < k ∧ k < (isr_pendsv L).indexOf .cpsie_i) ∧
    (∀ k i, (isr_svc L)[k]? = some i → i.isCritical = true →
      (isr_svc L).indexOf .cpsid_i < k ∧ k < (isr_svc L).indexOf .cpsie_i) ∧
    (isr_pendsv L).drop ((isr_pendsv L).indexOf .cpsie_i + 1) = [.bx .lr] ∧
    (isr_svc L).drop ((isr_svc L).indexOf .cpsie_i + 1) = [.bx .r0] := by
  have ip1 : (isr_pendsv L).indexOf .cpsid_i = 2 := of_decide_eq_true rfl
  have ip2 : (isr_pendsv L).indexOf .cpsie_i = 27 := of_decide_eq_true rfl
  have is1 : (isr_svc L).indexOf .cpsid_i = 2 := of_decide_eq_true rfl
  have is2 : (isr_svc L).indexOf .cpsie_i = 16 := of_decide_eq_true rfl
  refine ⟨?_, ?_, of_decide_eq_true rfl, of_decide_eq_true rfl, of_decide_eq_true rfl,
    of_decide_eq_true rfl, ?_, ?_, ?_, ?_⟩
  · intro p hp hc
    refine trace_masked [.dsb, .isb] ((isr_pendsv L).drop 3 |>.take 24) .lr s ?_ ?_ p hp hc
    · intro i hi
      simp only [List.mem_cons, List.mem_singleton, List.mem_nil_iff, or_false] at hi
      rcases hi with h | h <;> subst h <;> rfl
    · intro i hi
      simp only [isr_pendsv, List.drop, List.take, List.mem_cons, List.mem_singleton,
        List.mem_nil_iff, or_false] at hi
      rcases hi with h | h | h | h | h | h | h | h | h | h | h | h | h | h | h | h | h | h | h |
        h | h | h | h | h <;> subst h <;> simp
  · intro p hp hc
    refine trace_masked [.dsb, .isb] ((isr_svc L).drop 3 |>.take 13) .r0 s ?_ ?_ p hp hc
    · intro i hi
      simp only [List.mem_cons, List.mem_singleton, List.mem_nil_iff, or_false] at hi
      rcases hi with h | h <;> subst h <;> rfl
    · intro i hi
      simp only [isr_svc, List.drop, List.take, List.mem_cons, List.mem_singleton,
        List.mem_nil_iff, or_false] at hi
      rcases hi with h | h | h | h | h | h | h | h | h | h | h | h | h <;> subst h <;> simp
  · intro k i hk hc
    rw [ip1, ip2]
    have hlt : k < 29 := by
      have := (List.getElem?_eq_some_iff.mp hk).1
      exact this
    interval_cases k <;> simp [isr_pendsv] at hk <;> subst hk <;> simp [Instr.isCritical] at hc ⊢
  · intro k i hk hc
    rw [is1, is2]
    have hlt : k < 18 := by
      have := (List.getElem?_eq_some_iff.mp hk).1
      exact this
    interval_cases k <;> simp [isr_svc] at hk <;> subst hk <;> simp [Instr.isCritical] at hc ⊢
  · rw [ip2]
    rfl
  · rw [is2]
    rfl

/-! ## `osport_idle` never returns -/

/-- Steps of `osport_idle` from the head of the loop: after `2 * k` steps the
routine is at the head again with `k` iterations and `k` waits more, after
`2 * k + 1` steps it is at the `WFI` of iteration `k + 1`. -/
theorem osport_idle_steps_head (k i w : Nat) :
    osport_idle_steps (2 * k) { point := .head, iterations := i, waits := w }
      = some { point := .head, iterations := i + k, waits := w + k } ∧
    osport_idle_steps (2 * k + 1) { point := .head, iterations := i, waits := w }
      = some { point := .wfi, iterations := i + k + 1, waits := w + k } := by
  induction k generalizing i w with
  | zero => exact ⟨rfl, rfl⟩
  | succ k ih =>
    have e1 : 2 * (k + 1) = (2 * k + 1) + 1 := by omega
    have e2 : 2 * (k + 1) + 1 = ((2 * k + 1) + 1) + 1 := by omega
    have h := ih (i + 1) (w + 1)
    have a1 : i + 1 + k = i + (k + 1) := by omega
    have a2 : w + 1 + k = w + (k + 1) := by omega
    rw [a1, a2] at h
    constructor
    · rw [e1]
      show osport_idle_steps (2 * k) { point := .head, iterations := i + 1, waits := w + 1 } = _
      exact h.1
    · rw [e2]
      show osport_idle_steps (2 * k + 1)
        { point := .head, iterations := i + 1, waits := w + 1 } = _
      exact h.2

/-- C14: `osport_idle` never returns.  Every state of the routine other than
the return has a step and no step reaches the return, so after any number of
steps from the entry the routine is still in the loop; the only step from the
body executes `WFI` and goes back to the loop head; and every completed
iteration has executed exactly one `WFI` (waits equal iterations at the head). -/
theorem osport_idle_never_returns :
    (∀ s, s.point ≠ .returned → ∃ t, osport_idle_step s = some t ∧ t.point ≠ .returned) ∧
    (∀ s t, osport_idle_step s = some t → t.point ≠ .returned) ∧
    (∀ n, ∃ t, osport_idle_steps n osport_idle_entry = some t ∧ t.point ≠ .returned ∧
      (t.point = .head → t.waits = t.iterations) ∧
      (t.point = .wfi → t.waits + 1 = t.iterations)) ∧
    (∀ k, osport_idle_steps (2 * k) osport_idle_entry
      = some { point := .head, iterations := k, waits := k }) ∧
    (∀ s, s.point = .wfi →
      osport_idle_step s = some { s with point := .head, waits := s.waits + 1 }) := by
  refine ⟨?_, ?_, ?_, ?_, ?_⟩
  · rintro ⟨pt, i, w⟩ h
    cases pt
    · exact ⟨_, rfl, by simp⟩
    · exact ⟨_, rfl, by simp⟩
    · exact absurd rfl h
  · rintro ⟨pt, i, w⟩ t h
    cases pt
    · simp only [osport_idle_step, Option.some.injEq] at h
      subst h
      simp
    · simp only [osport_idle_step, Option.some.injEq] at h
      subst h
      simp
    · simp [osport_idle_step] at h
  · intro n
    obtain ⟨k, hk | hk⟩ := Nat.even_or_odd' n
    · have h := (osport_idle_steps_head k 0 0).1
      simp only [Nat.zero_add] at h
      subst hk
      exact ⟨_, h, by simp, fun _ => rfl, by simp⟩
    · have h := (osport_idle_steps_head k 0 0).2
      simp only [Nat.zero_add] at h
      subst hk
      exact ⟨_, h, by simp, by simp, fun _ => rfl⟩
  · intro k
    have h := (osport_idle_steps_head k 0 0).1
    simp only [Nat.zero_add] at h
    exact h
  · rintro ⟨pt, i, w⟩ h
    simp only at h
    subst h
    rfl

/-! ## Bootstrap runs over sequences of calls -/

theorem svcRuns_call (L : LinkSyms) (hb : Cpu → Cpu) (σ : Sys) (op : Op) :
    (Sys.call L hb σ op).svcRuns = σ.svcRuns + (if op.bootstraps then 1 else 0) := by
  cases op <;> rfl

theorem svcRuns_calls (L : LinkSyms) (hb : Cpu → Cpu) (σ : Sys) (ops : List Op) :
    (Sys.calls L hb σ ops).svcRuns = σ.svcRuns + ops.countP Op.bootstraps := by
  induction ops generalizing σ with
  | nil => rfl
  | cons op ops ih =>
    show (Sys.calls L hb (Sys.call L hb σ op) ops).svcRuns = _
    rw [ih, svcRuns_call, List.countP_cons]
    omega

/-- Counterexample to C13: two calls of `osport_start` in a row run the
bootstrap protocol twice; the second run again ends in the exception return
`0xFFFFFFFD` with the process stack pointer set from the first thread. -/
theorem single_bootstrap_counterexample :
    ¬ (Sys.calls demoLink (fun c => c) { cpu := demoBootCpu, svcRuns := 0 }
        [.osport_start, .osport_start]).svcRuns ≤ 1 ∧
    (Sys.calls demoLink (fun c => c) { cpu := demoBootCpu, svcRuns := 0 }
        [.osport_start, .osport_start]).cpu.branch = some 0xFFFFFFFD ∧
    (Sys.calls demoLink (fun c => c) { cpu := demoBootCpu, svcRuns := 0 }
        [.osport_start, .osport_start]).cpu.psp = 0x200020E0 := by
  decide

/-- C13, amended: `isr_svc` has no run-once guard.  Over every sequence of
calls of the exposed operations the bootstrap protocol runs once for each call
of `osport_start` and each entry of `isr_svc`, whatever ran before, and each
such run resets the main stack pointer and ends in the exception return
`0xFFFFFFFD`; so it runs at most once exactly for the sequences that contain at
most one such call. -/
theorem bootstrap_runs_once_per_call (L : LinkSyms) (os_handle_heartbeat : Cpu → Cpu)
    (σ : Sys) (ops : List Op) :
    (Sys.calls L os_handle_heartbeat σ ops).svcRuns
      = σ.svcRuns + ops.countP Op.bootstraps ∧
    ((Sys.calls L os_handle_heartbeat { σ with svcRuns := 0 } ops).svcRuns ≤ 1 ↔
      ops.countP Op.bootstraps ≤ 1) ∧
    (Sys.call L os_handle_heartbeat σ .isr_svc).svcRuns = σ.svcRuns + 1 ∧
    (Sys.call L os_handle_heartbeat σ .osport_start).svcRuns = σ.svcRuns + 1 ∧
    (Sys.call L os_handle_heartbeat σ .isr_svc).cpu.branch = some 0xFFFFFFFD ∧
    (Sys.call L os_handle_heartbeat σ .osport_start).cpu.branch = some 0xFFFFFFFD ∧
    (Sys.call L os_handle_heartbeat σ .isr_svc).cpu.msp = L.main_stack_bottom % WORD ∧
    (Sys.call L os_handle_heartbeat σ .osport_start).cpu.msp = L.main_stack_bottom % WORD := by
  refine ⟨svcRuns_calls L _ σ ops, ?_, rfl, rfl, ?_, ?_, ?_, ?_⟩
  · rw [svcRuns_calls]
    simp
  · exact (isr_svc_run L σ.cpu _ _ rfl rfl).2.2.2.2.1
  · exact (isr_svc_run L { σ.cpu with mem := osport_start_enable σ.cpu.mem } _ _ rfl rfl).2.2.2.2.1
  · exact (isr_svc_run L σ.cpu _ _ rfl rfl).2.2.1
  · exact (isr_svc_run L { σ.cpu with mem := osport_start_enable σ.cpu.mem } _ _ rfl rfl).2.2.1

/-! ## Dispatching a freshly built frame -/

/-- Words of a frame built by `osport_init_stack` with the debug fill, read from
any memory that agrees with the result on the 64 bytes of the frame. -/
theorem frame_words_of_agree (m0 m2 : Mem) (p n E R : Nat)
    (hsize : 64 ≤ n) (hn : n < OSPORT_UINT_T_RANGE) (hregion : p + n ≤ WORD)
    (hE : E < WORD) (hR : R < WORD)
    (hag : ∀ k, k < 64 →
      m2.bytes ((osport_init_stack true m0 p n E R).1 + k)
        = (osport_init_stack true m0 p n E R).2.bytes ((osport_init_stack true m0 p n E R).1 + k)) :
    (osport_init_stack true m0 p n E R).1 + 64 ≤ WORD ∧
    [0, 4, 8, 12, 16, 20, 24, 28, 32, 36, 40, 44, 48, 52, 56, 60].map
        (fun k => m2.load32 ((osport_init_stack true m0 p n E R).1 + k)) =
      [0x1008, 0x1009, 0x100A, 0x100B, 0x1004, 0x1005, 0x1006, 0x1007,
       0x1000, 0x1001, 0x1002, 0x1003, 0x100C, R, E, 0x01000000] := by
  have hf : (osport_init_stack true m0 p n E R).1 = p + n - 64 := by
    rw [osport_init_stack_fst]
    simp only [WORD, OSPORT_UINT_T_RANGE] at *
    omega
  have hW : (osport_init_stack true m0 p n E R).1 + 64 ≤ WORD := by
    rw [hf]
    simp only [WORD] at *
    omega
  refine ⟨hW, ?_⟩
  have img := getField_init_debug m0 p n E R
  rw [Nat.mod_eq_of_lt hE, Nat.mod_eq_of_lt hR] at img
  rw [← img]
  generalize (osport_init_stack true m0 p n E R).1 = f at *
  generalize (osport_init_stack true m0 p n E R).2 = mi at *
  have key : ∀ k, k + 4 ≤ 64 → m2.load32 (f + k) = mi.load32 (f + k) := by
    intro k hk
    apply load32_congr_bytes
    · simp only [WORD] at *
      omega
    · intro x hx1 hx2
      have := hag (x - f) (by omega)
      rwa [Nat.add_sub_cancel' (by omega)] at this
  simp only [List.map, stack_frame_s]
  rw [key 0 (by omega), key 4 (by omega), key 8 (by omega), key 12 (by omega),
    key 16 (by omega), key 20 (by omega), key 24 (by omega), key 28 (by omega),
    key 32 (by omega), key 36 (by omega), key 40 (by omega), key 44 (by omega),
    key 48 (by omega), key 52 (by omega), key 56 (by omega), key 60 (by omega)]
  rfl

/-- The stack pointer `isr_pendsv` installs when the incoming thread differs
from the outgoing one: the saved stack pointer of the incoming thread plus 32,
with the registers popped from the words below it. -/
theorem isr_pendsv_incoming (L : LinkSyms) (s : Cpu) (h : PendsvLayout L s) (f : Nat)
    (hb1 : WordAvoids (s.mem.load32 L.pp_next) (s.psp - 32) s.psp)
    (hb2 : WordsDisjoint (s.mem.load32 L.pp_current) (s.mem.load32 L.pp_next))
    (hf : s.mem.load32 (s.mem.load32 L.pp_next) = f) (hW : f + 64 ≤ WORD) :
    (run (isr_pendsv L) s).psp = f + 32 ∧
    (run (isr_pendsv L) s).regs .r8 = (pendsvSaved L s).load32 f ∧
    (run (isr_pendsv L) s).regs .r9 = (pendsvSaved L s).load32 (f + 4) ∧
    (run (isr_pendsv L) s).regs .r10 = (pendsvSaved L s).load32 (f + 8) ∧
    (run (isr_pendsv L) s).regs .r11 = (pendsvSaved L s).load32 (f + 12) ∧
    (run (isr_pendsv L) s).regs .r4 = (pendsvSaved L s).load32 (f + 16) ∧
    (run (isr_pendsv L) s).regs .r5 = (pendsvSaved L s).load32 (f + 20) ∧
    (run (isr_pendsv L) s).regs .r6 = (pendsvSaved L s).load32 (f + 24) ∧
    (run (isr_pendsv L) s).regs .r7 = (pendsvSaved L s).load32 (f + 28) := by
  obtain ⟨hlo, hhi, -⟩ := id h
  have hb : s.mem.load32 L.pp_next = (pendsvSaved L s).load32 L.pp_next :=
    (pendsvSaved_load_next L s h).symm
  have hsp : f = (pendsvSaved L s).load32 (s.mem.load32 L.pp_next) := by
    rw [load32_pendsvSaved_of_avoid L s h _ hb1 hb2, hf]
  obtain ⟨-, hpsp, -, -, -, r8, r9, r10, r11, r4, r5, r6, r7, -⟩ :=
    isr_pendsv_run L s hlo hhi _ _ hb hsp
  have e16 : (f + 16) % WORD = f + 16 := Nat.mod_eq_of_lt (by simp only [WORD] at *; omega)
  have e32 : (f + 16 + 16) % WORD = f + 32 := by simp only [WORD] at *; omega
  rw [e16] at r4 r5 r6 r7 hpsp
  rw [e32] at hpsp
  exact ⟨hpsp, r8, r9, r10, r11, r4, r5, r6, r7⟩

/-- C17: frame alignment.  For every region `[p, p + n)` of the address space
with `64 <= n` whose base and size are multiples of `OSPORT_MEM_ALIGN = 4`, the
frame base returned by `osport_init_stack` is a multiple of 4, and so is the
process stack pointer, base + 32, that `isr_svc` installs for a current thread
with that saved stack pointer and that `isr_pendsv` installs for an incoming
thread with that saved stack pointer. -/
theorem frame_alignment (debug : Bool) (m : Mem) (p n E R : Nat)
    (hsize : 64 ≤ n) (hn : n < OSPORT_UINT_T_RANGE) (hregion : p + n ≤ WORD)
    (hp : p % OSPORT_MEM_ALIGN = 0) (hna : n % OSPORT_MEM_ALIGN = 0) :
    OSPORT_MEM_ALIGN = 4 ∧
    (osport_init_stack debug m p n E R).1 % 4 = 0 ∧
    (∀ (L : LinkSyms) (s : Cpu),
      s.mem.load32 (s.mem.load32 L.pp_current) = (osport_init_stack debug m p n E R).1 →
      (run (isr_svc L) s).psp = (osport_init_stack debug m p n E R).1 + 32 ∧
      (run (isr_svc L) s).psp % 4 = 0) ∧
    (∀ (L : LinkSyms) (s : Cpu), PendsvLayout L s →
      WordAvoids (s.mem.load32 L.pp_next) (s.psp - 32) s.psp →
      WordsDisjoint (s.mem.load32 L.pp_current) (s.mem.load32 L.pp_next) →
      s.mem.load32 (s.mem.load32 L.pp_next) = (osport_init_stack debug m p n E R).1 →
      (run (isr_pendsv L) s).psp = (osport_init_stack debug m p n E R).1 + 32 ∧
      (run (isr_pendsv L) s).psp % 4 = 0) := by
  have hf : (osport_init_stack debug m p n E R).1 = p + n - 64 := by
    rw [osport_init_stack_fst]
    simp only [WORD, OSPORT_UINT_T_RANGE] at *
    omega
  have hW : (osport_init_stack debug m p n E R).1 + 64 ≤ WORD := by
    rw [hf]
    simp only [WORD] at *
    omega
  have h4 : (osport_init_stack debug m p n E R).1 % 4 = 0 := by
    rw [hf]
    simp only [OSPORT_MEM_ALIGN] at hp hna
    omega
  generalize (osport_init_stack debug m p n E R).1 = f at *
  refine ⟨rfl, h4, ?_, ?_⟩
  · intro L s hs
    obtain ⟨-, hpsp, -⟩ := isr_svc_run L s _ f rfl hs.symm
    have e16 : (f + 16) % WORD = f + 16 := Nat.mod_eq_of_lt (by simp only [WORD] at *; omega)
    have e32 : (f + 16 + 16) % WORD = f + 32 := by simp only [WORD] at *; omega
    rw [e16, e32] at hpsp
    refine ⟨hpsp, ?_⟩
    rw [hpsp]
    omega
  · intro L s hl h1 h2 h3
    have hpsp := (isr_pendsv_incoming L s hl f h1 h2 h3 hW).1
    refine ⟨hpsp, ?_⟩
    rw [hpsp]
    omega

/-- Witness for C17: a region of 256 bytes at `0x20002000`. -/
theorem frame_alignment_witness :
    64 ≤ 256 ∧ 256 < OSPORT_UINT_T_RANGE ∧ 0x20002000 + 256 ≤ WORD ∧
      0x20002000 % OSPORT_MEM_ALIGN = 0 ∧ 256 % OSPORT_MEM_ALIGN = 0 ∧
      (osport_init_stack true mem0 0x20002000 256 0x08000101 0x08000201).1 % 4 = 0 ∧
      (run (isr_svc demoLink) demoBootCpu).psp % 4 = 0 :=
  ⟨by decide, by decide, by decide, by decide, by decide,
    (frame_alignment true mem0 0x20002000 256 0x08000101 0x08000201 (by decide) (by decide)
      (by decide) (by decide) (by decide)).2.1,
    ((frame_alignment true mem0 0x20002000 256 0x08000101 0x08000201 (by decide) (by decide)
      (by decide) (by decide) (by decide)).2.2.1 demoLink demoBootCpu (by decide)).2⟩


/-- Exception return at the end of `isr_svc`: thread mode on the process stack,
registers popped from the hardware-saved half at `sp + 32`, privilege as
CONTROL.nPRIV had it on entry. -/
theorem exceptionReturn_isr_svc (L : LinkSyms) (s : Cpu) (sp : Nat)
    (hsp : s.mem.load32 (s.mem.load32 L.pp_current) = sp) (hframe : sp + 64 ≤ WORD) :
    exceptionReturn (run (isr_svc L) s) = some
      { r0 := s.mem.load32 (sp + 32)
        r1 := s.mem.load32 (sp + 36)
        r2 := s.mem.load32 (sp + 40)
        r3 := s.mem.load32 (sp + 44)
        r12 := s.mem.load32 (sp + 48)
        lr := s.mem.load32 (sp + 52)
        pc := s.mem.load32 (sp + 56)
        psr := s.mem.load32 (sp + 60)
        threadMode := true
        onProcessStack := true
        privileged := s.control % 2 == 0 } := by
  obtain ⟨hm, hpsp, -, -, hbr, -⟩ := isr_svc_run L s _ sp rfl hsp.symm
  have e16 : (sp + 16) % WORD = sp + 16 := Nat.mod_eq_of_lt (by simp only [WORD] at *; omega)
  have e32 : (sp + 16 + 16) % WORD = sp + 32 := by simp only [WORD] at *; omega
  rw [e16, e32] at hpsp
  have hl : ∀ w, (run (isr_svc L) s).mem.load32 w = s.mem.load32 w := by
    intro w
    rw [hm, load32_logLoad32x4, load32_logLoad32x4, load32_logLoad32, load32_logLoad32]
  simp only [exceptionReturn, hbr, unstack, hpsp, hl, run_control, if_true, Nat.add_assoc,
    Nat.reduceAdd, Bool.not_true, Bool.false_or]

/-- C15: first dispatch of a freshly built frame.  For every region with
`64 <= n`, 32-bit entry `E` and return handler `R`: if the current thread's
saved stack pointer is the value `f` returned by `osport_init_stack` (debug
fill on) and the 64 frame bytes still hold what it stored, then after `isr_svc`
`rN = 0x1000 + N` for `N` in `4..11`, the process stack pointer is `f + 32`,
and the exception return pops `r0..r3 = 0x1000..0x1003`, `r12 = 0x100C`,
`lr = R`, `pc = E`, `psr = 0x01000000` into thread mode on the process stack. -/
theorem first_dispatch_loads_fresh_frame (L : LinkSyms) (s : Cpu) (m0 : Mem) (p n E R : Nat)
    (hsize : 64 ≤ n) (hn : n < OSPORT_UINT_T_RANGE) (hregion : p + n ≤ WORD)
    (hE : E < WORD) (hR : R < WORD)
    (hcur : s.mem.load32 (s.mem.load32 L.pp_current) = (osport_init_stack true m0 p n E R).1)
    (hag : ∀ k, k < 64 →
      s.mem.bytes ((osport_init_stack true m0 p n E R).1 + k)
        = (osport_init_stack true m0 p n E R).2.bytes ((osport_init_stack true m0 p n E R).1 + k)) :
    (run (isr_svc L) s).regs .r4 = 0x1004 ∧
    (run (isr_svc L) s).regs .r5 = 0x1005 ∧
    (run (isr_svc L) s).regs .r6 = 0x1006 ∧
    (run (isr_svc L) s).regs .r7 = 0x1007 ∧
    (run (isr_svc L) s).regs .r8 = 0x1008 ∧
    (run (isr_svc L) s).regs .r9 = 0x1009 ∧
    (run (isr_svc L) s).regs .r10 = 0x100A ∧
    (run (isr_svc L) s).regs .r11 = 0x100B ∧
    (run (isr_svc L) s).psp = (osport_init_stack true m0 p n E R).1 + 32 ∧
    exceptionReturn (run (isr_svc L) s) = some
      { r0 := 0x1000, r1 := 0x1001, r2 := 0x1002, r3 := 0x1003, r12 := 0x100C,
        lr := R, pc := E, psr := 0x01000000,
        threadMode := true, onProcessStack := true, privileged := s.control % 2 == 0 } := by
  obtain ⟨hW, hw⟩ := frame_words_of_agree m0 s.mem p n E R hsize hn hregion hE hR hag
  simp only [List.map, List.cons.injEq, and_true] at hw
  obtain ⟨w0, w4, w8, w12, w16, w20, w24, w28, w32, w36, w40, w44, w48, w52, w56, w60⟩ := hw
  rw [Nat.add_zero] at w0
  have hbl : L.main_stack_bottom % WORD < WORD := Nat.mod_lt _ (by decide)
  have hx := exceptionReturn_isr_svc L s _ hcur hW
  obtain ⟨-, hpsp, -, -, -, r8, r9, r10, r11, r4, r5, r6, r7⟩ :=
    isr_svc_run L s _ _ rfl hcur.symm
  generalize (osport_init_stack true m0 p n E R).1 = f at *
  have e16 : (f + 16) % WORD = f + 16 := Nat.mod_eq_of_lt (by simp only [WORD] at *; omega)
  have e32 : (f + 16 + 16) % WORD = f + 32 := by simp only [WORD] at *; omega
  rw [e16] at r4 r5 r6 r7 hpsp
  rw [e32] at hpsp
  simp only [Nat.add_assoc, Nat.reduceAdd] at r5 r6 r7
  rw [w16] at r4
  rw [w20] at r5
  rw [w24] at r6
  rw [w28] at r7
  rw [w0] at r8
  rw [w4] at r9
  rw [w8] at r10
  rw [w12] at r11
  rw [w32, w36, w40, w44, w48, w52, w56, w60] at hx
  exact ⟨r4, r5, r6, r7, r8, r9, r10, r11, hpsp, hx⟩


/-- Counterexample to C16: a self-switch.  Thread B is current and next, its
saved-stack-pointer word holds the address `f` of the intact frame built by
`osport_init_stack`, and its save area and handle do not overlap `[f, f + 64)`.
The handler first overwrites that word with `psp - 32`, so it reloads the
registers it has just saved: `r4` is `0x44`, not `0x1004`, and the process
stack pointer is not `f + 32`. -/
theorem restore_fresh_frame_counterexample :
    PendsvLayout demoLink demoSelfCpu ∧
    demoSelfCpu.mem.load32 (demoSelfCpu.mem.load32 demoLink.pp_next)
      = (osport_init_stack true mem0 0x20002000 256 0x08000101 0x08000201).1 ∧
    (∀ k, k < 64 →
      demoSelfCpu.mem.bytes
          ((osport_init_stack true mem0 0x20002000 256 0x08000101 0x08000201).1 + k)
        = (osport_init_stack true mem0 0x20002000 256 0x08000101 0x08000201).2.bytes
          ((osport_init_stack true mem0 0x20002000 256 0x08000101 0x08000201).1 + k)) ∧
    ((osport_init_stack true mem0 0x20002000 256 0x08000101 0x08000201).1 + 64
        ≤ demoSelfCpu.psp - 32 ∨
      demoSelfCpu.psp ≤ (osport_init_stack true mem0 0x20002000 256 0x08000101 0x08000201).1) ∧
    (demoSelfCpu.mem.load32 demoLink.pp_current + 4
        ≤ (osport_init_stack true mem0 0x20002000 256 0x08000101 0x08000201).1 ∨
      (osport_init_stack true mem0 0x20002000 256 0x08000101 0x08000201).1 + 64
        ≤ demoSelfCpu.mem.load32 demoLink.pp_current) ∧
    (run (isr_pendsv demoLink) demoSelfCpu).regs .r4 = 0x44 ∧
    ¬ (run (isr_pendsv demoLink) demoSelfCpu).regs .r4 = 0x1004 ∧
    ¬ (run (isr_pendsv demoLink) demoSelfCpu).psp
      = (osport_init_stack true mem0 0x20002000 256 0x08000101 0x08000201).1 + 32 := by
  decide

/-- C16, amended: the restore phase accepts a frame built by
`osport_init_stack` when the incoming thread is not the outgoing one.  Entry
layout; the next thread's saved stack pointer is `f` and the 64 frame bytes
hold what `osport_init_stack` stored (debug fill on, `64 <= n`); the outgoing
save area, the outgoing handle word and `g_sch.p_current` do not overlap
`[f, f + 64)`; and the incoming handle word is disjoint from the outgoing
handle word and from the save area.  Then after `isr_pendsv`
`rN = 0x1000 + N` for `N` in `4..11`, the process stack pointer is `f + 32`,
and the words at `f + 52`, `f + 56`, `f + 60` are still `R`, `E`,
`0x01000000`. -/
theorem restore_accepts_fresh_frame (L : LinkSyms) (s : Cpu) (m0 : Mem) (p n E R : Nat)
    (hsize : 64 ≤ n) (hn : n < OSPORT_UINT_T_RANGE) (hregion : p + n ≤ WORD)
    (hE : E < WORD) (hR : R < WORD)
    (hlay : PendsvLayout L s)
    (hnext : s.mem.load32 (s.mem.load32 L.pp_next) = (osport_init_stack true m0 p n E R).1)
    (hag : ∀ k, k < 64 →
      s.mem.bytes ((osport_init_stack true m0 p n E R).1 + k)
        = (osport_init_stack true m0 p n E R).2.bytes ((osport_init_stack true m0 p n E R).1 + k))
    (hstack : (osport_init_stack true m0 p n E R).1 + 64 ≤ s.psp - 32 ∨
      s.psp ≤ (osport_init_stack true m0 p n E R).1)
    (hhandle : s.mem.load32 L.pp_current + 4 ≤ (osport_init_stack true m0 p n E R).1 ∨
      (osport_init_stack true m0 p n E R).1 + 64 ≤ s.mem.load32 L.pp_current)
    (hlink : L.pp_current + 4 ≤ (osport_init_stack true m0 p n E R).1 ∨
      (osport_init_stack true m0 p n E R).1 + 64 ≤ L.pp_current)
    (hdiff : WordsDisjoint (s.mem.load32 L.pp_current) (s.mem.load32 L.pp_next))
    (hnsave : WordAvoids (s.mem.load32 L.pp_next) (s.psp - 32) s.psp) :
    (run (isr_pendsv L) s).regs .r4 = 0x1004 ∧
    (run (isr_pendsv L) s).regs .r5 = 0x1005 ∧
    (run (isr_pendsv L) s).regs .r6 = 0x1006 ∧
    (run (isr_pendsv L) s).regs .r7 = 0x1007 ∧
    (run (isr_pendsv L) s).regs .r8 = 0x1008 ∧
    (run (isr_pendsv L) s).regs .r9 = 0x1009 ∧
    (run (isr_pendsv L) s).regs .r10 = 0x100A ∧
    (run (isr_pendsv L) s).regs .r11 = 0x100B ∧
    (run (isr_pendsv L) s).psp = (osport_init_stack true m0 p n E R).1 + 32 ∧
    (run (isr_pendsv L) s).mem.load32 ((osport_init_stack true m0 p n E R).1 + 52) = R ∧
    (run (isr_pendsv L) s).mem.load32 ((osport_init_stack true m0 p n E R).1 + 56) = E ∧
    (run (isr_pendsv L) s).mem.load32 ((osport_init_stack true m0 p n E R).1 + 60)
      = 0x01000000 := by
  obtain ⟨hW, hw⟩ := frame_words_of_agree m0 s.mem p n E R hsize hn hregion hE hR hag
  simp only [List.map, List.cons.injEq, and_true] at hw
  obtain ⟨w0, w4, w8, w12, w16, w20, w24, w28, -, -, -, -, -, w52, w56, w60⟩ := hw
  rw [Nat.add_zero] at w0
  obtain ⟨hpsp, r8, r9, r10, r11, r4, r5, r6, r7⟩ :=
    isr_pendsv_incoming L s hlay _ hnsave hdiff hnext hW
  generalize (osport_init_stack true m0 p n E R).1 = f at *
  obtain ⟨hlo, hhi, hc, -, -, ha, -, -⟩ := id hlay
  have av : ∀ k, k + 4 ≤ 64 → WordAvoids (f + k) (s.psp - 32) s.psp ∧
      WordsDisjoint (s.mem.load32 L.pp_current) (f + k) ∧ WordsDisjoint L.pp_current (f + k) := by
    intro k hk
    simp only [WordAvoids, WordsDisjoint, WORD] at *
    omega
  have sv : ∀ k, k + 4 ≤ 64 → (pendsvSaved L s).load32 (f + k) = s.mem.load32 (f + k) :=
    fun k hk => load32_pendsvSaved_of_avoid L s hlay _ (av k hk).1 (av k hk).2.1
  have fin : ∀ k, k + 4 ≤ 64 → (run (isr_pendsv L) s).mem.load32 (f + k) = s.mem.load32 (f + k) :=
    fun k hk => load32_isr_pendsv_of_avoid L s hlay _ (av k hk).1 (av k hk).2.1 (av k hk).2.2
  have sv0 := sv 0 (by omega)
  rw [Nat.add_zero] at sv0
  rw [sv0, w0] at r8
  rw [sv 4 (by omega), w4] at r9
  rw [sv 8 (by omega), w8] at r10
  rw [sv 12 (by omega), w12] at r11
  rw [sv 16 (by omega), w16] at r4
  rw [sv 20 (by omega), w20] at r5
  rw [sv 24 (by omega), w24] at r6
  rw [sv 28 (by omega), w28] at r7
  refine ⟨r4, r5, r6, r7, r8, r9, r10, r11, hpsp, ?_, ?_, ?_⟩
  · rw [fin 52 (by omega), w52]
  · rw [fin 56 (by omega), w56]
  · rw [fin 60 (by omega), w60]


/-- Storing back the word that memory `m` holds at `w` leaves the byte values
of that word as they are in `m`. -/
theorem bytes_store32_load32_self (m m2 : Mem) (w x : Nat) (hw : w + 4 ≤ WORD)
    (h1 : w ≤ x) (h2 : x < w + 4) :
    (m2.store32 w (m.load32 w)).bytes x % 256 = m.bytes x % 256 := by
  have e0 : w % WORD = w := Nat.mod_eq_of_lt (by simp only [WORD] at *; omega)
  have e1 : (w + 1) % WORD = w + 1 := Nat.mod_eq_of_lt (by simp only [WORD] at *; omega)
  have e2 : (w + 2) % WORD = w + 2 := Nat.mod_eq_of_lt (by simp only [WORD] at *; omega)
  have e3 : (w + 3) % WORD = w + 3 := Nat.mod_eq_of_lt (by simp only [WORD] at *; omega)
  have b0 : m.bytes w % 256 < 256 := Nat.mod_lt _ (by decide)
  have b1 : m.bytes (w + 1) % 256 < 256 := Nat.mod_lt _ (by decide)
  have b2 : m.bytes (w + 2) % 256 < 256 := Nat.mod_lt _ (by decide)
  have b3 : m.bytes (w + 3) % 256 < 256 := Nat.mod_lt _ (by decide)
  simp only [bytes_store32, Mem.load32, Mem.load8, e0, e1, e2, e3]
  have hx : x = w + 3 ∨ x = w + 2 ∨ x = w + 1 ∨ x = w := by omega
  rcases hx with h | h | h | h
  · subst h
    simp only [if_true]
    omega
  · subst h
    have n1 : w + 2 ≠ w + 3 := by omega
    simp only [n1, if_true, if_false]
    omega
  · subst h
    have n1 : w + 1 ≠ w + 3 := by omega
    have n2 : w + 1 ≠ w + 2 := by omega
    simp only [n1, n2, if_true, if_false]
    omega
  · subst h
    have n1 : x ≠ x + 3 := by omega
    have n2 : x ≠ x + 2 := by omega
    have n3 : x ≠ x + 1 := by omega
    simp only [n1, n2, n3, if_true, if_false]
    omega

/-- C18: self-switch is the identity on thread state.  For every pre-state
with the entry layout (in particular the handle word outside the save area),
32-bit registers and `g_sch.p_next = g_sch.p_current`, `isr_pendsv` exits with
`r4..r11` and the process stack pointer as on entry and with `g_sch.p_current`
unchanged; every byte outside the 32-byte save area and the thread's
saved-stack-pointer word keeps its value. -/
theorem isr_pendsv_self_switch (L : LinkSyms) (s : Cpu) (h : PendsvLayout L s)
    (hregs : ∀ r, s.regs r < WORD)
    (hself : s.mem.load32 L.pp_next = s.mem.load32 L.pp_current) :
    (run (isr_pendsv L) s).regs .r4 = s.regs .r4 ∧
    (run (isr_pendsv L) s).regs .r5 = s.regs .r5 ∧
    (run (isr_pendsv L) s).regs .r6 = s.regs .r6 ∧
    (run (isr_pendsv L) s).regs .r7 = s.regs .r7 ∧
    (run (isr_pendsv L) s).regs .r8 = s.regs .r8 ∧
    (run (isr_pendsv L) s).regs .r9 = s.regs .r9 ∧
    (run (isr_pendsv L) s).regs .r10 = s.regs .r10 ∧
    (run (isr_pendsv L) s).regs .r11 = s.regs .r11 ∧
    (run (isr_pendsv L) s).psp = s.psp ∧
    (run (isr_pendsv L) s).mem.load32 L.pp_current = s.mem.load32 L.pp_current ∧
    (∀ x, (x < s.psp - 32 ∨ s.psp ≤ x) →
      (x < s.mem.load32 L.pp_current ∨ s.mem.load32 L.pp_current + 4 ≤ x) →
      (run (isr_pendsv L) s).mem.bytes x % 256 = s.mem.bytes x % 256) := by
  obtain ⟨hlo, hhi, hc, hn, hcn, ha, hac, han⟩ := id h
  have ar := load32_pendsvSaved_area L s h
  simp only [Nat.mod_eq_of_lt (hregs _)] at ar
  obtain ⟨a8, a9, a10, a11, a4, a5, a6, a7, asp⟩ := ar
  have hb : s.mem.load32 L.pp_current = (pendsvSaved L s).load32 L.pp_next := by
    rw [pendsvSaved_load_next L s h, hself]
  have hsp : s.psp - 32 = (pendsvSaved L s).load32 (s.mem.load32 L.pp_current) := asp.symm
  obtain ⟨hm, hpsp, -, -, -, r8, r9, r10, r11, r4, r5, r6, r7, -⟩ :=
    isr_pendsv_run L s hlo hhi _ _ hb hsp
  have e16 : (s.psp - 32 + 16) % WORD = s.psp - 32 + 16 :=
    Nat.mod_eq_of_lt (by simp only [WORD] at *; omega)
  have e32 : (s.psp - 32 + 16 + 16) % WORD = s.psp := by simp only [WORD] at *; omega
  have t20 : s.psp - 32 + 16 + 4 = s.psp - 32 + 20 := by omega
  have t24 : s.psp - 32 + 16 + 8 = s.psp - 32 + 24 := by omega
  have t28 : s.psp - 32 + 16 + 12 = s.psp - 32 + 28 := by omega
  rw [e16] at r4 r5 r6 r7 hpsp
  rw [t20] at r5
  rw [t24] at r6
  rw [t28] at r7
  rw [e32] at hpsp
  rw [a4] at r4
  rw [a5] at r5
  rw [a6] at r6
  rw [a7] at r7
  rw [a8] at r8
  rw [a9] at r9
  rw [a10] at r10
  rw [a11] at r11
  refine ⟨r4, r5, r6, r7, r8, r9, r10, r11, hpsp, ?_, ?_⟩
  · rw [hm, load32_store32_same]
    exact Nat.mod_eq_of_lt (load32_lt _ _)
  · intro x hx hxa
    by_cases hxc : x < L.pp_current ∨ L.pp_current + 4 ≤ x
    · rw [bytes_isr_pendsv_of_outside L s h x hx hxa hxc]
    · rw [hm]
      exact bytes_store32_load32_self s.mem _ L.pp_current x hc.1 (by omega) (by omega)


/-- Counterexample to C11: from the reset value `CONTROL = 0` the first thread
resumes at its entry program counter in thread mode, but privileged. -/
theorem bootstrap_resumes_privileged_counterexample :
    demoBootCpu.control = 0 ∧
    (exceptionReturn (run (isr_svc demoLink) demoBootCpu)).map Resumed.pc = some 0x08000101 ∧
    (exceptionReturn (run (isr_svc demoLink) demoBootCpu)).map Resumed.threadMode = some true ∧
    (exceptionReturn (run (isr_svc demoLink) demoBootCpu)).map Resumed.privileged = some true ∧
    ¬ (exceptionReturn (run (isr_svc demoLink) demoBootCpu)).map Resumed.privileged
        = some false := by
  decide

/-- C11, amended: for every pre-state in which `isr_svc` is entered with a
current thread whose frame at `sp` lies in the address space, the exception
return resumes the first thread at the program counter stored in its frame, in
thread mode on the process stack, with the privilege that CONTROL.nPRIV had on
entry: neither `isr_svc` nor `osport_start` writes CONTROL, so from the reset
value `CONTROL = 0` the thread resumes privileged. -/
theorem bootstrap_resumes_first_thread (L : LinkSyms) (os_handle_heartbeat : Cpu → Cpu)
    (s : Cpu) (sp : Nat)
    (hsp : s.mem.load32 (s.mem.load32 L.pp_current) = sp) (hframe : sp + 64 ≤ WORD) :
    (exceptionReturn (run (isr_svc L) s)).map Resumed.pc = some (s.mem.load32 (sp + 56)) ∧
    (exceptionReturn (run (isr_svc L) s)).map Resumed.threadMode = some true ∧
    (exceptionReturn (run (isr_svc L) s)).map Resumed.onProcessStack = some true ∧
    (exceptionReturn (run (isr_svc L) s)).map Resumed.privileged = some (s.control % 2 == 0) ∧
    (run (isr_svc L) s).control = s.control ∧
    (∀ σ : Sys, (Sys.call L os_handle_heartbeat σ .osport_start).cpu.control = σ.cpu.control) ∧
    (s.control = 0 →
      (exceptionReturn (run (isr_svc L) s)).map Resumed.privileged = some true) := by
  have hx := exceptionReturn_isr_svc L s sp hsp hframe
  refine ⟨?_, ?_, ?_, ?_, run_control _ _, fun σ => run_control _ _, fun h0 => ?_⟩
  · rw [hx]
    rfl
  · rw [hx]
    rfl
  · rw [hx]
    rfl
  · rw [hx]
    rfl
  · rw [hx, h0]
    rfl

/-- Witness for C11: the first thread is B, with its frame at `0x200020C0`. -/
theorem bootstrap_resumes_first_thread_witness :
    demoBootCpu.mem.load32 (demoBootCpu.mem.load32 demoLink.pp_current) = 0x200020C0 ∧
      0x200020C0 + 64 ≤ WORD ∧
      (exceptionReturn (run (isr_svc demoLink) demoBootCpu)).map Resumed.pc
        = some (demoBootCpu.mem.load32 (0x200020C0 + 56)) :=
  ⟨by decide, by decide,
    (bootstrap_resumes_first_thread demoLink (fun c => c) demoBootCpu 0x200020C0 (by decide)
      (by decide)).1⟩

/-- Witness for C15: the first thread is B, whose frame was built in the
region of 256 bytes at `0x20002000`. -/
theorem first_dispatch_loads_fresh_frame_witness :
    64 ≤ 256 ∧ 256 < OSPORT_UINT_T_RANGE ∧ 0x20002000 + 256 ≤ WORD ∧
      0x08000101 < WORD ∧ 0x08000201 < WORD ∧
      (run (isr_svc demoLink) demoBootCpu).regs .r4 = 0x1004 ∧
      (run (isr_svc demoLink) demoBootCpu).psp
        = (osport_init_stack true mem0 0x20002000 256 0x08000101 0x08000201).1 + 32 :=
  ⟨by decide, by decide, by decide, by decide, by decide,
    (first_dispatch_loads_fresh_frame demoLink demoBootCpu mem0 0x20002000 256 0x08000101
      0x08000201 (by decide) (by decide) (by decide) (by decide) (by decide) (by decide)
      (by decide)).1,
    (first_dispatch_loads_fresh_frame demoLink demoBootCpu mem0 0x20002000 256 0x08000101
      0x08000201 (by decide) (by decide) (by decide) (by decide) (by decide) (by decide)
      (by decide)).2.2.2.2.2.2.2.2.1⟩

/-- Witness for C16: thread A is switched out for thread B, whose frame was
built in the region of 256 bytes at `0x20002000`. -/
theorem restore_accepts_fresh_frame_witness :
    PendsvLayout demoLink demoCpu ∧
      WordsDisjoint (demoCpu.mem.load32 demoLink.pp_current)
        (demoCpu.mem.load32 demoLink.pp_next) ∧
      (run (isr_pendsv demoLink) demoCpu).regs .r4 = 0x1004 ∧
      (run (isr_pendsv demoLink) demoCpu).psp
        = (osport_init_stack true mem0 0x20002000 256 0x08000101 0x08000201).1 + 32 :=
  ⟨by decide, by decide,
    (restore_accepts_fresh_frame demoLink demoCpu mem0 0x20002000 256 0x08000101 0x08000201
      (by decide) (by decide) (by decide) (by decide) (by decide) (by decide) (by decide)
      (by decide) (by decide) (by decide) (by decide) (by decide) (by decide)).1,
    (restore_accepts_fresh_frame demoLink demoCpu mem0 0x20002000 256 0x08000101 0x08000201
      (by decide) (by decide) (by decide) (by decide) (by decide) (by decide) (by decide)
      (by decide) (by decide) (by decide) (by decide) (by decide)
      (by decide)).2.2.2.2.2.2.2.2.1⟩

/-- Witness for C18: thread B is current and next. -/
theorem isr_pendsv_self_switch_witness :
    PendsvLayout demoLink demoSelfCpu ∧
      demoSelfCpu.mem.load32 demoLink.pp_next = demoSelfCpu.mem.load32 demoLink.pp_current ∧
      (run (isr_pendsv demoLink) demoSelfCpu).regs .r4 = demoSelfCpu.regs .r4 ∧
      (run (isr_pendsv demoLink) demoSelfCpu).psp = demoSelfCpu.psp :=
  ⟨by decide, by decide,
    (isr_pendsv_self_switch demoLink demoSelfCpu (by decide) (fun r => by cases r <;> decide)
      (by decide)).1,
    (isr_pendsv_self_switch demoLink demoSelfCpu (by decide) (fun r => by cases r <;> decide)
      (by decide)).2.2.2.2.2.2.2.2.1⟩

end MRtos
